import Mathlib

/-!
Shallow embedding of `apps/backend/src/lib/projects.tsx`: the project
configuration read path (`projectPrismaToCrud`, `listManagedProjectIds`) and
the provisioning transaction (`createProject`), together with proofs about
the flattening, defaulting, duplication and owner-linking behaviour.
-/

namespace Stack

/-- Modelled from the spec (§7): the error taxonomy of the platform.  The
source raises `StackAssertionError` (internal invariant violations) and, per
the spec, `throwErr` on missing caller-supplied fields is a ValidationError;
the store surfaces unique-constraint failures; JavaScript itself can raise a
`TypeError` when spreading a non-iterable value.  The error classes live in
`stack-shared/utils/errors`, which is not among the provided sources. -/
inductive Err where
  | invariant (message : String)
  | validation (message : String)
  | uniqueViolation (message : String)
  | typeError (message : String)
deriving DecidableEq, Repr

/-- A JSON value, as stored by Prisma in free-form columns such as
`ProjectUser.serverMetadata`.  `null` doubles as the SQL NULL the client
returns for an absent value. -/
inductive JsonVal where
  | null
  | bool (b : Bool)
  | num (n : Int)
  | str (s : String)
  | arr (xs : List JsonVal)
  | obj (fields : List (String × JsonVal))

/-- A JavaScript value as seen through the CRUD layer: a JSON value or
`undefined`. -/
inductive JsLike where
  | undef
  | val (v : JsonVal)

/-- `typeof` on the embedded JavaScript values.  Note that in JavaScript
`typeof null` and `typeof` of an array are both `"object"`. -/
def jsTypeof : JsLike → String
  | .undef => "undefined"
  | .val .null => "object"
  | .val (.bool _) => "boolean"
  | .val (.num _) => "number"
  | .val (.str _) => "string"
  | .val (.arr _) => "object"
  | .val (.obj _) => "object"

/-- First-binding lookup in a JavaScript object literal, matching property
lookup on objects decoded from JSON (keys are unique there). -/
def jsLookup (fields : List (String × JsonVal)) (k : String) : Option JsonVal :=
  (fields.find? (fun p => p.1 = k)).map (·.2)

/-- `isStringArray` from the source: `Array.isArray(value) &&
value.every(id => typeof id === "string")`. -/
def isStringArray : JsonVal → Bool
  | .arr xs => xs.all (fun x => match x with | .str _ => true | _ => false)
  | _ => false

/-- Extract the strings of a value for which `isStringArray` holds. -/
def stringArrayElems : JsonVal → List String
  | .arr xs => xs.filterMap (fun x => match x with | .str s => some s | _ => none)
  | _ => []

/-- `listManagedProjectIds` from the source, on the user record's
`server_metadata` field: throw a `StackAssertionError` unless
`typeof serverMetadata === "object"`, then read
`serverMetadata?.managedProjectIds ?? []` (the `??` turns both an absent and
a `null` property into the empty list) and throw unless the result passes
`isStringArray`. -/
def listManagedProjectIds (serverMetadata : JsLike) : Except Err (List String) :=
  if jsTypeof serverMetadata ≠ "object" then
    .error (.invariant "Invalid server metadata, did something go wrong?")
  else
    let raw : JsonVal :=
      match serverMetadata with
      | .val (.obj fields) =>
        match jsLookup fields "managedProjectIds" with
        | some .null => .arr []
        | some v => v
        | none => .arr []
      | _ => .arr []
    if isStringArray raw then
      .ok (stringArrayElems raw)
    else
      .error (.invariant "Invalid server metadata, did something go wrong? Expected string array")

/-! ### The normalized database graph (`fullProjectInclude` payload) -/

/-- `ProxiedOAuthProviderConfig` row: the shared variant, holding only the
provider type (stored uppercase). -/
structure ProxiedOAuthConfigDB where
  type : String
deriving DecidableEq, Repr

/-- `StandardOAuthProviderConfig` row: tenant-supplied credentials. -/
structure StandardOAuthConfigDB where
  type : String
  clientId : String
  clientSecret : String
  facebookConfigId : Option String
  microsoftTenantId : Option String
deriving DecidableEq, Repr

/-- `OAuthProviderConfig` row with its two nullable variant includes. -/
structure OAuthProviderConfigDB where
  id : String
  proxiedOAuthConfig : Option ProxiedOAuthConfigDB
  standardOAuthConfig : Option StandardOAuthConfigDB
deriving DecidableEq, Repr

/-- `OtpAuthMethodConfig` row. -/
structure OtpConfigDB where
  contactChannelType : String
deriving DecidableEq, Repr

/-- `AuthMethodConfig` row with its nullable mechanism includes;
`passwordConfig` and `passkeyConfig` rows carry no fields of their own. -/
structure AuthMethodConfigDB where
  id : String
  enabled : Bool
  oauthProviderConfig : Option OAuthProviderConfigDB
  otpConfig : Option OtpConfigDB
  passwordConfig : Option Unit
  passkeyConfig : Option Unit
deriving DecidableEq, Repr

/-- `ConnectedAccountConfig` row with its nullable OAuth include. -/
structure ConnectedAccountConfigDB where
  enabled : Bool
  oauthProviderConfig : Option OAuthProviderConfigDB
deriving DecidableEq, Repr

/-- `StandardEmailServiceConfig` row. -/
structure StandardEmailServiceConfigDB where
  host : String
  port : Nat
  username : String
  password : String
  senderEmail : String
  senderName : String
deriving DecidableEq, Repr

/-- `EmailServiceConfig` row with its two nullable variant includes (the
proxied variant has no fields). -/
structure EmailServiceConfigDB where
  proxiedEmailServiceConfig : Option Unit
  standardEmailServiceConfig : Option StandardEmailServiceConfigDB
deriving DecidableEq, Repr

/-- `ProjectDomain` row. -/
structure DomainDB where
  domain : String
  handlerPath : String
deriving DecidableEq, Repr

/-- The closed enumeration of team system permissions used by this file. -/
inductive TeamSystemPermission where
  | UPDATE_TEAM
  | DELETE_TEAM
  | READ_MEMBERS
  | REMOVE_MEMBERS
  | INVITE_MEMBERS
deriving DecidableEq, Repr

/-- A permission parent-edge; `createProject` only ever creates edges to
team system permissions. -/
structure ParentEdgeDB where
  parentTeamSystemPermission : TeamSystemPermission
deriving DecidableEq, Repr

/-- `Permission` row (team scope) with its parent-edges. -/
structure PermissionDB where
  projectId : String
  projectConfigId : String
  queryableId : String
  description : String
  scope : String
  isDefaultTeamCreatorPermission : Bool
  isDefaultTeamMemberPermission : Bool
  parentEdges : List ParentEdgeDB
deriving DecidableEq, Repr

/-- `ProjectConfig` row with all the includes of `fullProjectInclude`. -/
structure ProjectConfigDB where
  id : String
  allowLocalhost : Bool
  signUpEnabled : Bool
  createTeamOnSignUp : Bool
  clientTeamCreationEnabled : Bool
  clientUserDeletionEnabled : Bool
  legacyGlobalJwtSigning : Bool
  domains : List DomainDB
  oauthProviderConfigs : List OAuthProviderConfigDB
  authMethodConfigs : List AuthMethodConfigDB
  connectedAccountConfigs : List ConnectedAccountConfigDB
  emailServiceConfig : Option EmailServiceConfigDB
  permissions : List PermissionDB
  teamCreateDefaultSystemPermissions : List TeamSystemPermission
  teamMemberDefaultSystemPermissions : List TeamSystemPermission
deriving DecidableEq, Repr

/-- `Project` row with its config graph and the `_count.users` aggregate. -/
structure ProjectDB where
  id : String
  displayName : String
  description : Option String
  createdAtMillis : Nat
  userCount : Nat
  isProductionMode : Bool
  config : ProjectConfigDB
deriving DecidableEq, Repr

/-- `ProjectUser` row of the store, restricted to the fields this file
touches. -/
structure ProjectUserDB where
  projectId : String
  projectUserId : String
  serverMetadata : JsonVal

/-! ### The flattened API view -/

/-- One entry of the view's `oauth_providers` list. -/
structure OAuthProviderView where
  id : String
  enabled : Bool
  type : String
  client_id : Option String := none
  client_secret : Option String := none
  facebook_config_id : Option String := none
  microsoft_tenant_id : Option String := none
deriving DecidableEq, Repr

/-- One entry of the view's `domains` list. -/
structure DomainView where
  domain : String
  handler_path : String
deriving DecidableEq, Repr

/-- The view's `email_config` field. -/
inductive EmailConfigView where
  | shared
  | standard (host : String) (port : Nat) (username : String) (password : String)
      (sender_email : String) (sender_name : String)
deriving DecidableEq, Repr

/-- One entry of the default-permission lists (`{id}` objects). -/
structure PermissionIdView where
  id : String
deriving DecidableEq, Repr

/-- The view's `config` object. -/
structure ProjectConfigView where
  id : String
  allow_localhost : Bool
  sign_up_enabled : Bool
  credential_enabled : Bool
  magic_link_enabled : Bool
  passkey_enabled : Bool
  create_team_on_sign_up : Bool
  client_team_creation_enabled : Bool
  client_user_deletion_enabled : Bool
  legacy_global_jwt_signing : Bool
  domains : List DomainView
  oauth_providers : List OAuthProviderView
  enabled_oauth_providers : List OAuthProviderView
  email_config : EmailConfigView
  team_creator_default_permissions : List PermissionIdView
  team_member_default_permissions : List PermissionIdView
deriving DecidableEq, Repr

/-- The flattened admin view of a project. -/
structure ProjectView where
  id : String
  display_name : String
  description : String
  created_at_millis : Nat
  user_count : Nat
  is_production_mode : Bool
  config : ProjectConfigView
deriving DecidableEq, Repr

/-! ### The read path: `projectPrismaToCrud` -/

/-- ASCII lowercasing of one character. -/
def lowerChar (c : Char) : Char :=
  if 65 ≤ c.toNat ∧ c.toNat ≤ 90 then Char.ofNat (c.toNat + 32) else c

/-- ASCII uppercasing of one character. -/
def upperChar (c : Char) : Char :=
  if 97 ≤ c.toNat ∧ c.toNat ≤ 122 then Char.ofNat (c.toNat - 32) else c

/-- `typedToLowercase` (string utils, not among the provided sources),
modelled as ASCII lowercasing. -/
def typedToLowercase (s : String) : String := String.mk (s.data.map lowerChar)

/-- `typedToUppercase` (string utils, not among the provided sources),
modelled as ASCII uppercasing. -/
def typedToUppercase (s : String) : String := String.mk (s.data.map upperChar)

/-- Lexicographic comparison of character lists by code point, the order
underlying the source's `localeCompare`-based ascending sorts. -/
def charsLe : List Char → List Char → Bool
  | [], _ => true
  | _ :: _, [] => false
  | a :: as, b :: bs =>
    if a.toNat < b.toNat then true
    else if b.toNat < a.toNat then false
    else charsLe as bs

/-- The ascending string order used by the view's sorts (modelling
`localeCompare` as code-point lexicographic comparison). -/
def strLe (a b : String) : Bool := charsLe a.data b.data

theorem charsLe_total : ∀ xs ys, charsLe xs ys = true ∨ charsLe ys xs = true := by
  intro xs
  induction xs with
  | nil => exact fun ys => Or.inl rfl
  | cons a as ih =>
    intro ys
    cases ys with
    | nil => exact Or.inr rfl
    | cons b bs =>
      by_cases hab : a.toNat < b.toNat
      · exact Or.inl (by rw [charsLe, if_pos hab])
      · by_cases hba : b.toNat < a.toNat
        · exact Or.inr (by rw [charsLe, if_pos hba])
        · rcases ih bs with h | h
          · exact Or.inl (by rw [charsLe, if_neg hab, if_neg hba]; exact h)
          · exact Or.inr (by rw [charsLe, if_neg hba, if_neg hab]; exact h)

theorem charsLe_trans :
    ∀ xs ys zs, charsLe xs ys = true → charsLe ys zs = true → charsLe xs zs = true := by
  intro xs
  induction xs with
  | nil => intro ys zs _ _; rfl
  | cons a as ih =>
    intro ys zs hxy hyz
    cases ys with
    | nil => exact absurd hxy (by rw [charsLe]; exact Bool.false_ne_true)
    | cons b bs =>
      cases zs with
      | nil => exact absurd hyz (by rw [charsLe]; exact Bool.false_ne_true)
      | cons c cs =>
        rw [charsLe] at hxy hyz ⊢
        by_cases hab : a.toNat < b.toNat
        · by_cases hbc : b.toNat < c.toNat
          · rw [if_pos (by omega : a.toNat < c.toNat)]
          · rw [if_neg hbc] at hyz
            by_cases hcb : c.toNat < b.toNat
            · rw [if_pos hcb] at hyz
              cases hyz
            · rw [if_pos (by omega : a.toNat < c.toNat)]
        · rw [if_neg hab] at hxy
          by_cases hba : b.toNat < a.toNat
          · rw [if_pos hba] at hxy
            cases hxy
          · rw [if_neg hba] at hxy
            by_cases hbc : b.toNat < c.toNat
            · rw [if_pos (by omega : a.toNat < c.toNat)]
            · rw [if_neg hbc] at hyz
              by_cases hcb : c.toNat < b.toNat
              · rw [if_pos hcb] at hyz
                cases hyz
              · rw [if_neg hcb] at hyz
                rw [if_neg (by omega : ¬a.toNat < c.toNat),
                  if_neg (by omega : ¬c.toNat < a.toNat)]
                exact ih bs cs hxy hyz

theorem strLe_total (a b : String) : strLe a b = true ∨ strLe b a = true :=
  charsLe_total a.data b.data

theorem strLe_trans {a b c : String} (h1 : strLe a b = true) (h2 : strLe b c = true) :
    strLe a c = true :=
  charsLe_trans a.data b.data c.data h1 h2

/-- The invariant-violation message for a malformed OAuth provider config,
as interpolated by the source. -/
def oauthVariantInvariantMsg (amcId pid : String) : String :=
  s!"Exactly one of the provider configs should be set on provider config {amcId} of project {pid}"

/-- The invariant-violation message for a malformed email service config. -/
def emailVariantInvariantMsg (pid : String) : String :=
  s!"Exactly one of the email service configs should be set on project {pid}"

/-- The invariant-violation message for a missing email service config. -/
def emailMissingInvariantMsg (pid : String) : String :=
  s!"Email service config should be set on project {pid}"

/-- The per-`AuthMethodConfig` body of the `oauthProviders` map in
`projectPrismaToCrud`: configs without an OAuth reference map to
`undefined` (here `none`); for the rest, the proxied variant is checked
first, then the standard variant, and an assertion error is raised when
neither is populated. -/
def resolveOAuthProvider (pid : String) (config : AuthMethodConfigDB) :
    Except Err (Option OAuthProviderView) :=
  match config.oauthProviderConfig with
  | none => .ok none
  | some providerConfig =>
    match providerConfig.proxiedOAuthConfig with
    | some proxied =>
      .ok (some { id := typedToLowercase proxied.type, enabled := config.enabled, type := "shared" })
    | none =>
      match providerConfig.standardOAuthConfig with
      | some std =>
        .ok (some {
          id := typedToLowercase std.type,
          enabled := config.enabled,
          type := "standard",
          client_id := some std.clientId,
          client_secret := some std.clientSecret,
          facebook_config_id := std.facebookConfigId,
          microsoft_tenant_id := std.microsoftTenantId })
      | none => .error (.invariant (oauthVariantInvariantMsg config.id pid))

/-- The `email_config` IIFE of `projectPrismaToCrud`: assert the config
exists, check the proxied variant first, then the standard variant, and
raise an assertion error when neither is populated. -/
def resolveEmailConfig (pid : String) : Option EmailServiceConfigDB → Except Err EmailConfigView
  | none => .error (.invariant (emailMissingInvariantMsg pid))
  | some emailServiceConfig =>
    match emailServiceConfig.proxiedEmailServiceConfig with
    | some _ => .ok .shared
    | none =>
      match emailServiceConfig.standardEmailServiceConfig with
      | some std =>
        .ok (.standard std.host std.port std.username std.password std.senderEmail std.senderName)
      | none => .error (.invariant (emailVariantInvariantMsg pid))

/-- Left-to-right effectful map, the order in which a JavaScript `.map`
callback raises its first exception. -/
def mapExcept (f : α → Except Err β) : List α → Except Err (List β)
  | [] => .ok []
  | x :: xs => do
    let y ← f x
    let ys ← mapExcept f xs
    pure (y :: ys)

/-- The comparator `(a, b) => a.id.localeCompare(b.id)` on provider views. -/
def oauthLe (a b : OAuthProviderView) : Prop := strLe a.id b.id = true

instance : DecidableRel oauthLe := fun a b => inferInstanceAs (Decidable (strLe a.id b.id = true))

instance : IsTotal OAuthProviderView oauthLe := ⟨fun a b => strLe_total a.id b.id⟩

instance : IsTrans OAuthProviderView oauthLe := ⟨fun _ _ _ hab hbc => strLe_trans hab hbc⟩

/-- The comparator `(a, b) => a.domain.localeCompare(b.domain)`. -/
def domainLe (a b : DomainView) : Prop := strLe a.domain b.domain = true

instance : DecidableRel domainLe :=
  fun a b => inferInstanceAs (Decidable (strLe a.domain b.domain = true))

instance : IsTotal DomainView domainLe := ⟨fun a b => strLe_total a.domain b.domain⟩

instance : IsTrans DomainView domainLe := ⟨fun _ _ _ hab hbc => strLe_trans hab hbc⟩

/-- The comparator `(a, b) => a.id.localeCompare(b.id)` on permission view
entries. -/
def permIdLe (a b : PermissionIdView) : Prop := strLe a.id b.id = true

instance : DecidableRel permIdLe := fun a b => inferInstanceAs (Decidable (strLe a.id b.id = true))

instance : IsTotal PermissionIdView permIdLe := ⟨fun a b => strLe_total a.id b.id⟩

instance : IsTrans PermissionIdView permIdLe := ⟨fun _ _ _ hab hbc => strLe_trans hab hbc⟩

/-- Modelled from the spec (§4.2.5): `teamPermissionDefinitionJsonFromDbType`
(defined in `./permissions`, not among the provided sources) maps a custom
`Permission` row to its public JSON object; only the `id` (its queryable id)
matters to this file. -/
def teamPermissionDefinitionJsonFromDbType (p : PermissionDB) : PermissionIdView :=
  { id := p.queryableId }

/-- Modelled from the spec (§4.2.5):
`teamPermissionDefinitionJsonFromTeamSystemDbType` maps a team system
permission to its public id (an injective naming of the closed
enumeration). -/
def teamPermissionDefinitionJsonFromTeamSystemDbType (p : TeamSystemPermission) : PermissionIdView :=
  match p with
  | .UPDATE_TEAM => { id := "$update_team" }
  | .DELETE_TEAM => { id := "$delete_team" }
  | .READ_MEMBERS => { id := "$read_members" }
  | .REMOVE_MEMBERS => { id := "$remove_members" }
  | .INVITE_MEMBERS => { id := "$invite_members" }

/-- `projectPrismaToCrud` from the source: flattens a fully-loaded project
graph into the admin view, or raises the first assertion error encountered
(OAuth variant resolution happens before email variant resolution, as in the
source's evaluation order). -/
def projectPrismaToCrud (prisma : ProjectDB) : Except Err ProjectView := do
  let mapped ← mapExcept (resolveOAuthProvider prisma.id) prisma.config.authMethodConfigs
  let oauthProviders := List.insertionSort oauthLe (mapped.filterMap id)
  let passwordAuth := prisma.config.authMethodConfigs.find? (fun c => c.passwordConfig.isSome && c.enabled)
  let otpAuth := prisma.config.authMethodConfigs.find? (fun c => c.otpConfig.isSome && c.enabled)
  let passkeyAuth := prisma.config.authMethodConfigs.find? (fun c => c.passkeyConfig.isSome && c.enabled)
  let emailConfig ← resolveEmailConfig prisma.id prisma.config.emailServiceConfig
  pure {
    id := prisma.id,
    display_name := prisma.displayName,
    description := prisma.description.getD "",
    created_at_millis := prisma.createdAtMillis,
    user_count := prisma.userCount,
    is_production_mode := prisma.isProductionMode,
    config := {
      id := prisma.config.id,
      allow_localhost := prisma.config.allowLocalhost,
      sign_up_enabled := prisma.config.signUpEnabled,
      credential_enabled := passwordAuth.isSome,
      magic_link_enabled := otpAuth.isSome,
      passkey_enabled := passkeyAuth.isSome,
      create_team_on_sign_up := prisma.config.createTeamOnSignUp,
      client_team_creation_enabled := prisma.config.clientTeamCreationEnabled,
      client_user_deletion_enabled := prisma.config.clientUserDeletionEnabled,
      legacy_global_jwt_signing := prisma.config.legacyGlobalJwtSigning,
      domains := List.insertionSort domainLe
        (prisma.config.domains.map (fun d => { domain := d.domain, handler_path := d.handlerPath })),
      oauth_providers := oauthProviders,
      enabled_oauth_providers := oauthProviders.filter (fun provider => provider.enabled),
      email_config := emailConfig,
      team_creator_default_permissions :=
        (List.insertionSort permIdLe
          (((prisma.config.permissions.filter (fun perm => perm.isDefaultTeamCreatorPermission)).map
              teamPermissionDefinitionJsonFromDbType) ++
            prisma.config.teamCreateDefaultSystemPermissions.map
              teamPermissionDefinitionJsonFromTeamSystemDbType)).map
          (fun perm => { id := perm.id }),
      team_member_default_permissions :=
        (List.insertionSort permIdLe
          (((prisma.config.permissions.filter (fun perm => perm.isDefaultTeamMemberPermission)).map
              teamPermissionDefinitionJsonFromDbType) ++
            prisma.config.teamMemberDefaultSystemPermissions.map
              teamPermissionDefinitionJsonFromTeamSystemDbType)).map
          (fun perm => { id := perm.id }) } }

/-! ### The creation request (`InternalProjectsCrud["Admin"]["Create"]`) -/

/-- The declared `type` of an OAuth provider entry in the request (a
two-member string union in the source). -/
inductive OAuthReqType where
  | shared
  | standard
deriving DecidableEq, Repr

/-- One entry of the request's `config.oauth_providers` list. -/
structure OAuthProviderRequest where
  id : String
  type : OAuthReqType
  enabled : Bool
  client_id : Option String := none
  client_secret : Option String := none
  facebook_config_id : Option String := none
  microsoft_tenant_id : Option String := none
deriving DecidableEq, Repr

/-- One entry of the request's `config.domains` list. -/
structure DomainRequest where
  domain : String
  handler_path : String
deriving DecidableEq, Repr

/-- The declared `type` of the request's `email_config`. -/
inductive EmailReqType where
  | shared
  | standard
deriving DecidableEq, Repr

/-- The request's `config.email_config`, with every standard field
optional (validated at provisioning time). -/
structure EmailConfigRequest where
  type : EmailReqType
  host : Option String := none
  port : Option Nat := none
  username : Option String := none
  password : Option String := none
  sender_email : Option String := none
  sender_name : Option String := none
deriving DecidableEq, Repr

/-- The request's `config` object: every field optional. -/
structure ConfigRequest where
  sign_up_enabled : Option Bool := none
  allow_localhost : Option Bool := none
  create_team_on_sign_up : Option Bool := none
  client_team_creation_enabled : Option Bool := none
  client_user_deletion_enabled : Option Bool := none
  domains : Option (List DomainRequest) := none
  oauth_providers : Option (List OAuthProviderRequest) := none
  email_config : Option EmailConfigRequest := none
  magic_link_enabled : Option Bool := none
  credential_enabled : Option Bool := none
  passkey_enabled : Option Bool := none
deriving DecidableEq, Repr

/-- The creation request. -/
structure CreateRequest where
  display_name : String
  description : Option String := none
  is_production_mode : Option Bool := none
  config : Option ConfigRequest := none
deriving DecidableEq, Repr

/-! ### The provisioning transaction: `createProject` -/

/-- Modelled from the spec (§4.4 step 2): the platform's shared-provider
allowlist checked by `ensureSharedProvider` (defined in `./request-checks`,
not among the provided sources).  Its exact contents are irrelevant to the
claims; the spec's examples use shared google providers. -/
def sharedProviders : List String := ["github", "google", "microsoft", "spotify"]

/-- Modelled from the spec (§4.4 step 2): the platform's standard-provider
allowlist checked by `ensureStandardProvider`. -/
def standardProviders : List String := ["github", "google", "facebook", "microsoft", "spotify"]

/-- Modelled from the spec (§4.4 step 2, §7): `ensureSharedProvider`
validates membership of the shared allowlist and rejects caller input
otherwise. -/
def ensureSharedProvider (id : String) : Except Err String :=
  if id ∈ sharedProviders then .ok id
  else .error (.validation s!"shared provider {id} is not supported")

/-- Modelled from the spec (§4.4 step 2, §7): `ensureStandardProvider`
validates membership of the standard allowlist and rejects caller input
otherwise. -/
def ensureStandardProvider (id : String) : Except Err String :=
  if id ∈ standardProviders then .ok id
  else .error (.validation s!"standard provider {id} is not supported")

/-- Modelled from the spec (§4.4 steps 2 and 3, §7): `field ?? throwErr(msg)`
on a required request field — absence of caller input is a ValidationError.
(`throwErr` itself lives in `stack-shared/utils/errors`, not among the
provided sources.) -/
def requireField (field : Option α) (msg : String) : Except Err α :=
  match field with
  | some v => .ok v
  | none => .error (.validation msg)

/-- Modelled from the spec (§4.4 step 1): the store-schema default for
`signUpEnabled`, applied when the request leaves it unset (the Prisma schema
is not among the provided sources). -/
def signUpEnabledDefault : Bool := true

/-- Modelled from the spec: the store-schema default for
`legacyGlobalJwtSigning`, which `createProject` never sets. -/
def legacyGlobalJwtSigningDefault : Bool := false

/-- The per-entry body of the `oauthProviderConfigs.create` map in
`createProject`: the shared variant goes through `ensureSharedProvider`, the
standard variant through `ensureStandardProvider` and requires `client_id`
and `client_secret`. -/
def buildOAuthProviderConfig (item : OAuthProviderRequest) : Except Err OAuthProviderConfigDB := do
  let proxied ←
    if item.type = .shared then do
      let t ← ensureSharedProvider item.id
      pure (some { type := typedToUppercase t : ProxiedOAuthConfigDB })
    else pure none
  let standard ←
    if item.type = .standard then do
      let t ← ensureStandardProvider item.id
      let clientId ← requireField item.client_id "client_id is required"
      let clientSecret ← requireField item.client_secret "client_secret is required"
      pure (some {
        type := typedToUppercase t,
        clientId := clientId,
        clientSecret := clientSecret,
        facebookConfigId := item.facebook_config_id,
        microsoftTenantId := item.microsoft_tenant_id : StandardOAuthConfigDB })
    else pure none
  pure { id := item.id, proxiedOAuthConfig := proxied, standardOAuthConfig := standard }

/-- The `emailServiceConfig.create` branch of `createProject`: a supplied
config creates the variant matching its declared type (every standard field
required); an absent config defaults to the proxied (shared) variant. -/
def buildEmailServiceConfig : Option EmailConfigRequest → Except Err EmailServiceConfigDB
  | some emailConfig => do
    let proxied := if emailConfig.type = .shared then some () else none
    let standard ←
      if emailConfig.type = .standard then do
        let host ← requireField emailConfig.host "host is required"
        let port ← requireField emailConfig.port "port is required"
        let username ← requireField emailConfig.username "username is required"
        let password ← requireField emailConfig.password "password is required"
        let senderEmail ← requireField emailConfig.sender_email "sender_email is required"
        let senderName ← requireField emailConfig.sender_name "sender_name is required"
        pure (some {
          host := host, port := port, username := username, password := password,
          senderEmail := senderEmail, senderName := senderName : StandardEmailServiceConfigDB })
      else pure none
    pure { proxiedEmailServiceConfig := proxied, standardEmailServiceConfig := standard }
  | none => .ok { proxiedEmailServiceConfig := some (), standardEmailServiceConfig := none }

/-- The `tx.project.create` call of `createProject`: builds the new project
row and its config graph (domains, OAuth provider configs, email service
config) from the request, raising the request-validation errors in the
source's evaluation order.  Fresh ids and the creation timestamp are
parameters (`generateUuid` and the store clock are external). -/
def buildProject (newId newConfigId : String) (createdAtMillis : Nat)
    (data : CreateRequest) : Except Err ProjectDB := do
  let domains := ((data.config.bind (·.domains)).getD []).map
    (fun item => { domain := item.domain, handlerPath := item.handler_path : DomainDB })
  let oauthProviderConfigs ←
    mapExcept buildOAuthProviderConfig ((data.config.bind (·.oauth_providers)).getD [])
  let emailServiceConfig ← buildEmailServiceConfig (data.config.bind (·.email_config))
  pure {
    id := newId,
    displayName := data.display_name,
    description := data.description,
    createdAtMillis := createdAtMillis,
    userCount := 0,
    isProductionMode := data.is_production_mode.getD false,
    config := {
      id := newConfigId,
      signUpEnabled := (data.config.bind (·.sign_up_enabled)).getD signUpEnabledDefault,
      allowLocalhost := (data.config.bind (·.allow_localhost)).getD true,
      createTeamOnSignUp := (data.config.bind (·.create_team_on_sign_up)).getD false,
      clientTeamCreationEnabled := (data.config.bind (·.client_team_creation_enabled)).getD false,
      clientUserDeletionEnabled := (data.config.bind (·.client_user_deletion_enabled)).getD false,
      legacyGlobalJwtSigning := legacyGlobalJwtSigningDefault,
      domains := domains,
      oauthProviderConfigs := oauthProviderConfigs,
      authMethodConfigs := [],
      connectedAccountConfigs := [],
      emailServiceConfig := some emailServiceConfig,
      permissions := [],
      teamCreateDefaultSystemPermissions := [],
      teamMemberDefaultSystemPermissions := [] } }

/-- The `data.config?.oauth_providers?.find(p => p.id === item.id) ??
throwErr("oauth provider not found")` lookup shared by the auth-method and
connected-account steps; a created provider with no matching request entry
is an internal invariant violation (spec §4.4 step 4, §7). -/
def findRequestEntry (provs : List OAuthProviderRequest) (item : OAuthProviderConfigDB) :
    Except Err OAuthProviderRequest :=
  match provs.find? (fun p => p.id = item.id) with
  | some p => .ok p
  | none => .error (.invariant "oauth provider not found")

/-- The auth-method row created for one OAuth provider: the enabled flag
comes from the request entry, the mechanism is the provider connection. -/
def oauthAuthMethodRow (entry : OAuthProviderRequest) (item : OAuthProviderConfigDB) :
    AuthMethodConfigDB :=
  { id := "", enabled := entry.enabled, oauthProviderConfig := some item,
    otpConfig := none, passwordConfig := none, passkeyConfig := none }

/-- Look up the request entry for a created provider and build its
auth-method row. -/
def authMethodRowOf (provs : List OAuthProviderRequest) (item : OAuthProviderConfigDB) :
    Except Err AuthMethodConfigDB := do
  let entry ← findRequestEntry provs item
  pure (oauthAuthMethodRow entry item)

/-- The `...data.config?.magic_link_enabled ? [{...otpConfig...}] : []`
spread of `createProject` (an enabled OTP row with contact channel EMAIL iff
magic link was requested enabled). -/
def otpRowsOf (config : Option ConfigRequest) : List AuthMethodConfigDB :=
  if config.bind (·.magic_link_enabled) = some true then
    [{ id := "", enabled := true, oauthProviderConfig := none,
       otpConfig := some { contactChannelType := "EMAIL" },
       passwordConfig := none, passkeyConfig := none }]
  else []

/-- The `...(data.config?.credential_enabled ?? true) ? [{...passwordConfig...}] : []`
spread of `createProject` (an enabled password row unless credential auth
was explicitly disabled). -/
def passwordRowsOf (config : Option ConfigRequest) : List AuthMethodConfigDB :=
  if (config.bind (·.credential_enabled)).getD true then
    [{ id := "", enabled := true, oauthProviderConfig := none, otpConfig := none,
       passwordConfig := some (), passkeyConfig := none }]
  else []

/-- The `...data.config?.passkey_enabled ? [{...passkeyConfig...}] : []`
spread of `createProject` (an enabled passkey row iff requested enabled). -/
def passkeyRowsOf (config : Option ConfigRequest) : List AuthMethodConfigDB :=
  if config.bind (·.passkey_enabled) = some true then
    [{ id := "", enabled := true, oauthProviderConfig := none, otpConfig := none,
       passwordConfig := none, passkeyConfig := some () }]
  else []

/-- The `authMethodConfigs.create` list of `createProject`: one row per
created OAuth provider (enabled flag looked up in the request list), then an
OTP row iff magic link was requested enabled, a password row unless
credential auth was explicitly disabled, and a passkey row iff requested
enabled. -/
def buildAuthMethodConfigs (config : Option ConfigRequest)
    (created : List OAuthProviderConfigDB) : Except Err (List AuthMethodConfigDB) := do
  let oauthRows ←
    match config.bind (·.oauth_providers) with
    | some provs => mapExcept (authMethodRowOf provs) created
    | none => .ok []
  pure (oauthRows ++ otpRowsOf config ++ passwordRowsOf config ++ passkeyRowsOf config)

/-- The connected-account row mirroring one OAuth provider. -/
def oauthConnectedAccountRow (entry : OAuthProviderRequest) (item : OAuthProviderConfigDB) :
    ConnectedAccountConfigDB :=
  { enabled := entry.enabled, oauthProviderConfig := some item }

/-- Look up the request entry for a created provider and build its
connected-account row. -/
def connectedAccountRowOf (provs : List OAuthProviderRequest) (item : OAuthProviderConfigDB) :
    Except Err ConnectedAccountConfigDB := do
  let entry ← findRequestEntry provs item
  pure (oauthConnectedAccountRow entry item)

/-- The `connectedAccountConfigs.create` list of `createProject`: one row
mirroring each created OAuth provider, with the same request-entry lookup as
the auth-method step. -/
def buildConnectedAccountConfigs (config : Option ConfigRequest)
    (created : List OAuthProviderConfigDB) : Except Err (List ConnectedAccountConfigDB) :=
  match config.bind (·.oauth_providers) with
  | some provs => mapExcept (connectedAccountRowOf provs) created
  | none => .ok []

/-- The two fixed `tx.permission.create` calls of `createProject`. -/
def defaultPermissions (projectId projectConfigId : String) : List PermissionDB :=
  [ { projectId := projectId,
      projectConfigId := projectConfigId,
      queryableId := "member",
      description := "Default permission for team members",
      scope := "TEAM",
      isDefaultTeamCreatorPermission := false,
      isDefaultTeamMemberPermission := true,
      parentEdges := [.READ_MEMBERS, .INVITE_MEMBERS].map
        (fun p => { parentTeamSystemPermission := p }) },
    { projectId := projectId,
      projectConfigId := projectConfigId,
      queryableId := "admin",
      description := "Default permission for team creators",
      scope := "TEAM",
      isDefaultTeamCreatorPermission := true,
      isDefaultTeamMemberPermission := false,
      parentEdges := [.UPDATE_TEAM, .DELETE_TEAM, .READ_MEMBERS, .REMOVE_MEMBERS,
        .INVITE_MEMBERS].map (fun p => { parentTeamSystemPermission := p }) } ]

/-! ### Owner metadata updates (`createProject` step 7) -/

/-- An error report sent through `captureError` (`stack-shared`, not among
the provided sources): the tag, the assertion message, and the `ownerIds`
extra context the source attaches. -/
structure Anomaly where
  tag : String
  message : String
  ownerIds : List String

/-- The `captureError` report for an owner user id with no record. -/
def ownerNotFoundAnomaly (userId : String) (ownerIds : List String) : Anomaly :=
  { tag := "project-creation-owner-not-found",
    message := s!"Attempted to create project, but owner user ID {userId} not found. Did they delete their account? Continuing silently, but if the user is coming from an owner pack you should probably update it.",
    ownerIds := ownerIds }

/-- JavaScript property access `base?.k` on the embedded values: only
objects yield properties; on arrays, strings and primitives the named
property is `undefined` (`none`). -/
def jsGetProp (base : JsonVal) (k : String) : Option JsonVal :=
  match base with
  | .obj fields => jsLookup fields k
  | _ => none

/-- JavaScript array spread `[...(v ?? [])]` for an optional property value:
`undefined`/`null` give the empty list, arrays their elements, strings their
characters, and any other value raises a `TypeError` (not iterable). -/
def spreadArrayOrEmpty : Option JsonVal → Except Err (List JsonVal)
  | none => .ok []
  | some .null => .ok []
  | some (.arr xs) => .ok xs
  | some (.str s) => .ok (s.toList.map (fun c => .str (String.singleton c)))
  | some _ => .error (.typeError "value is not iterable")

/-- JavaScript object spread `{...base}`: objects contribute their fields,
arrays and strings their indexed elements, `null` and other primitives
nothing. -/
def jsSpreadFields : JsonVal → List (String × JsonVal)
  | .obj fields => fields
  | .arr xs => ((List.range xs.length).zip xs).map (fun p => (toString p.1, p.2))
  | .str s => ((List.range s.length).zip s.toList).map
      (fun p => (toString p.1, .str (String.singleton p.2)))
  | _ => []

/-- Assignment of a key in an object literal `{...fields, k: v}`: an
existing binding keeps its position with the new value, a new key is
appended. -/
def jsSetField (fields : List (String × JsonVal)) (k : String) (v : JsonVal) :
    List (String × JsonVal) :=
  if fields.any (fun p => p.1 = k) then
    fields.map (fun p => if p.1 = k then (k, v) else p)
  else fields ++ [(k, v)]

/-- The new `serverMetadata` written for an owner user in `createProject`:
`{...serverMetadataTx ?? {}, managedProjectIds:
[...serverMetadataTx?.managedProjectIds ?? [], project.id]}` with
`serverMetadataTx = projectUserTx.serverMetadata ?? {}`. -/
def updateOwnerServerMetadata (old : JsonVal) (projectId : String) : Except Err JsonVal := do
  let base := match old with
    | .null => JsonVal.obj []
    | v => v
  let existing ← spreadArrayOrEmpty (jsGetProp base "managedProjectIds")
  pure (.obj (jsSetField (jsSpreadFields base) "managedProjectIds"
    (.arr (existing ++ [.str projectId]))))

/-- Replace the server metadata of the internal-namespace user with the
given id (the `tx.projectUser.update` by composite key). -/
def updateUser (users : List ProjectUserDB) (userId : String) (newMeta : JsonVal) :
    List ProjectUserDB :=
  users.map (fun u =>
    if u.projectId = "internal" ∧ u.projectUserId = userId then
      { u with serverMetadata := newMeta }
    else u)

/-- The owner loop of `createProject`: for each owner id, look up the
internal-namespace user; a missing user records an anomaly and the loop
continues; a present user gets the merge-append metadata update. -/
def processOwners (projectId : String) (allOwnerIds : List String) :
    List ProjectUserDB → List Anomaly → List String →
    Except Err (List ProjectUserDB × List Anomaly)
  | users, anomalies, [] => .ok (users, anomalies)
  | users, anomalies, userId :: rest =>
    match users.find? (fun u => u.projectId = "internal" ∧ u.projectUserId = userId) with
    | none =>
      processOwners projectId allOwnerIds users
        (anomalies ++ [ownerNotFoundAnomaly userId allOwnerIds]) rest
    | some projectUserTx => do
      let newMeta ← updateOwnerServerMetadata projectUserTx.serverMetadata projectId
      processOwners projectId allOwnerIds
        (updateUser users projectUserTx.projectUserId newMeta) anomalies rest

/-! ### The full transaction -/

/-- The observable state of the store: the project rows with their config
graphs, the internal-namespace user rows, and the anomalies reported through
`captureError`. -/
structure Store where
  projects : List ProjectDB
  users : List ProjectUserDB
  anomalies : List Anomaly

/-- The body of the `prismaClient.$transaction` callback in `createProject`:
create the project graph (the store enforcing per-config uniqueness of
provider ids and domains, spec §6), attach the auth-method rows, the
mirrored connected-account rows and the two seeded permissions, run the
owner loop, and re-read the full graph.  Any error aborts the whole
transaction. -/
def createProjectTx (newId newConfigId : String) (createdAtMillis : Nat) (s : Store)
    (ownerIds : List String) (data : CreateRequest) : Except Err (Store × ProjectDB) := do
  let project ← buildProject newId newConfigId createdAtMillis data
  if (project.config.oauthProviderConfigs.map (·.id)).Nodup then pure ()
  else throw (.uniqueViolation "unique constraint failed on (projectConfigId, id)")
  if (project.config.domains.map (·.domain)).Nodup then pure ()
  else throw (.uniqueViolation "unique constraint failed on (projectConfigId, domain)")
  let authMethodConfigs ← buildAuthMethodConfigs data.config project.config.oauthProviderConfigs
  let connectedAccountConfigs ←
    buildConnectedAccountConfigs data.config project.config.oauthProviderConfigs
  let fullProject := { project with config := { project.config with
    authMethodConfigs := authMethodConfigs,
    connectedAccountConfigs := connectedAccountConfigs,
    permissions := defaultPermissions newId newConfigId } }
  let (users, anomalies) ← processOwners newId ownerIds s.users s.anomalies ownerIds
  pure ({ projects := s.projects ++ [fullProject], users := users, anomalies := anomalies },
    fullProject)

/-- `createProject` from the source: run the transaction (an error rolls the
store back unchanged), then flatten the re-read project through
`projectPrismaToCrud` outside the transaction. -/
def createProject (newId newConfigId : String) (createdAtMillis : Nat) (s : Store)
    (ownerIds : List String) (data : CreateRequest) : Store × Except Err ProjectView :=
  match createProjectTx newId newConfigId createdAtMillis s ownerIds data with
  | .error e => (s, .error e)
  | .ok (s2, project) => (s2, projectPrismaToCrud project)

/-! ### Generic lemmas about the `Except` embedding -/

theorem exc_bind_ok_iff {x : Except Err α} {f : α → Except Err β} {b : β} :
    x >>= f = .ok b ↔ ∃ a, x = .ok a ∧ f a = .ok b := by
  cases x with
  | ok a =>
    constructor
    · intro h
      exact ⟨a, rfl, h⟩
    · rintro ⟨a2, ha, hf⟩
      cases ha
      exact hf
  | error e =>
    constructor
    · intro h
      exact absurd h (by simp [Bind.bind, Except.bind])
    · rintro ⟨a2, ha, _⟩
      cases ha

theorem exc_bind_error {e : Err} {f : α → Except Err β} :
    (Except.error e : Except Err α) >>= f = .error e := rfl

theorem exc_bind_ok {a : α} {f : α → Except Err β} :
    (Except.ok a : Except Err α) >>= f = f a := rfl

theorem mapExcept_ok_iff {f : α → Except Err β} :
    ∀ {l : List α} {ys : List β},
      mapExcept f l = .ok ys ↔ List.Forall₂ (fun a b => f a = .ok b) l ys := by
  intro l
  induction l with
  | nil =>
    intro ys
    constructor
    · intro h
      cases h
      exact List.Forall₂.nil
    · intro h
      cases h
      rfl
  | cons x xs ih =>
    intro ys
    constructor
    · intro h
      rw [mapExcept, exc_bind_ok_iff] at h
      obtain ⟨y, hy, h⟩ := h
      rw [exc_bind_ok_iff] at h
      obtain ⟨ys2, hys, h⟩ := h
      cases h
      exact List.Forall₂.cons hy (ih.mp hys)
    · intro h
      cases h with
      | cons hy hys =>
        rw [mapExcept, hy, exc_bind_ok, ih.mpr hys, exc_bind_ok]
        rfl

theorem mapExcept_error_mem {f : α → Except Err β} :
    ∀ {l : List α} {e : Err}, mapExcept f l = .error e → ∃ x ∈ l, f x = .error e := by
  intro l
  induction l with
  | nil =>
    intro e h
    cases h
  | cons x xs ih =>
    intro e h
    rw [mapExcept] at h
    cases hx : f x with
    | error e2 =>
      rw [hx, exc_bind_error] at h
      cases h
      exact ⟨x, List.mem_cons_self x xs, hx⟩
    | ok y =>
      rw [hx, exc_bind_ok] at h
      cases hxs : mapExcept f xs with
      | error e2 =>
        rw [hxs, exc_bind_error] at h
        cases h
        obtain ⟨x2, hx2, he2⟩ := ih hxs
        exact ⟨x2, List.mem_cons_of_mem x hx2, he2⟩
      | ok ys =>
        rw [hxs] at h
        cases h

theorem forall₂_exists_right {R : α → β → Prop} :
    ∀ {l : List α} {ys : List β}, List.Forall₂ R l ys → ∀ {x}, x ∈ l → ∃ y ∈ ys, R x y := by
  intro l ys h
  induction h with
  | nil =>
    intro x hx
    cases hx
  | cons hab hrest ih =>
    intro x hx
    rcases List.mem_cons.mp hx with hx | hx
    · subst hx
      exact ⟨_, List.mem_cons_self _ _, hab⟩
    · obtain ⟨y, hy, hr⟩ := ih hx
      exact ⟨y, List.mem_cons_of_mem _ hy, hr⟩

theorem mapExcept_ne_ok_of_mem {f : α → Except Err β} {l : List α} {x : α} {e : Err}
    (hx : x ∈ l) (he : f x = .error e) {ys : List β} : mapExcept f l ≠ .ok ys := by
  intro h
  rw [mapExcept_ok_iff] at h
  obtain ⟨y, _, hfy⟩ := forall₂_exists_right h hx
  rw [he] at hfy
  cases hfy

theorem mapExcept_error_of_mem {f : α → Except Err β} {l : List α} {x : α} {e : Err}
    (hx : x ∈ l) (he : f x = .error e) :
    ∃ e2 x2, x2 ∈ l ∧ f x2 = .error e2 ∧ mapExcept f l = .error e2 := by
  cases hm : mapExcept f l with
  | ok ys => exact absurd hm (mapExcept_ne_ok_of_mem hx he)
  | error e2 =>
    obtain ⟨x2, hx2, he2⟩ := mapExcept_error_mem hm
    exact ⟨e2, x2, hx2, he2, rfl⟩

theorem mapExcept_ok_of_forall {f : α → Except Err β} :
    ∀ {l : List α}, (∀ x ∈ l, ∃ y, f x = .ok y) → ∃ ys, mapExcept f l = .ok ys := by
  intro l
  induction l with
  | nil => exact fun _ => ⟨[], rfl⟩
  | cons x xs ih =>
    intro h
    obtain ⟨y, hy⟩ := h x (List.mem_cons_self x xs)
    obtain ⟨ys, hys⟩ := ih (fun z hz => h z (List.mem_cons_of_mem x hz))
    exact ⟨y :: ys, by rw [mapExcept, hy, exc_bind_ok, hys, exc_bind_ok]; rfl⟩

theorem forall₂_map_eq {R : α → β → Prop} {l : List α} {ys : List β}
    (h : List.Forall₂ R l ys) (g1 : α → γ) (g2 : β → γ)
    (hg : ∀ a b, R a b → g2 b = g1 a) : ys.map g2 = l.map g1 := by
  induction h with
  | nil => rfl
  | cons hab _ ih => simp [ih, hg _ _ hab]

/-! ### Inversion of the read path -/

theorem projectPrismaToCrud_ok_elim {p : ProjectDB} {v : ProjectView}
    (h : projectPrismaToCrud p = .ok v) :
    ∃ mapped emailConfig,
      mapExcept (resolveOAuthProvider p.id) p.config.authMethodConfigs = .ok mapped ∧
      resolveEmailConfig p.id p.config.emailServiceConfig = .ok emailConfig ∧
      v.config.oauth_providers = List.insertionSort oauthLe (mapped.filterMap id) ∧
      v.config.enabled_oauth_providers =
        v.config.oauth_providers.filter (fun provider => provider.enabled) ∧
      v.config.email_config = emailConfig ∧
      v.config.domains = List.insertionSort domainLe
        (p.config.domains.map (fun d => { domain := d.domain, handler_path := d.handlerPath })) ∧
      v.config.team_creator_default_permissions =
        (List.insertionSort permIdLe
          (((p.config.permissions.filter (fun perm => perm.isDefaultTeamCreatorPermission)).map
              teamPermissionDefinitionJsonFromDbType) ++
            p.config.teamCreateDefaultSystemPermissions.map
              teamPermissionDefinitionJsonFromTeamSystemDbType)).map
          (fun perm => { id := perm.id }) ∧
      v.config.team_member_default_permissions =
        (List.insertionSort permIdLe
          (((p.config.permissions.filter (fun perm => perm.isDefaultTeamMemberPermission)).map
              teamPermissionDefinitionJsonFromDbType) ++
            p.config.teamMemberDefaultSystemPermissions.map
              teamPermissionDefinitionJsonFromTeamSystemDbType)).map
          (fun perm => { id := perm.id }) := by
  rw [projectPrismaToCrud, exc_bind_ok_iff] at h
  obtain ⟨mapped, hm, h⟩ := h
  rw [exc_bind_ok_iff] at h
  obtain ⟨emailConfig, he, h⟩ := h
  cases h
  exact ⟨mapped, emailConfig, hm, he, rfl, rfl, rfl, rfl, rfl, rfl⟩

theorem projectPrismaToCrud_error_of_mem {p : ProjectDB} {amc : AuthMethodConfigDB} {e : Err}
    (hmem : amc ∈ p.config.authMethodConfigs)
    (he : resolveOAuthProvider p.id amc = .error e) :
    ∃ e2, projectPrismaToCrud p = .error e2 := by
  cases hm : mapExcept (resolveOAuthProvider p.id) p.config.authMethodConfigs with
  | ok mapped => exact absurd hm (mapExcept_ne_ok_of_mem hmem he)
  | error e2 =>
    refine ⟨e2, ?_⟩
    rw [projectPrismaToCrud, hm, exc_bind_error]

/-! ### Claim C10: `listManagedProjectIds` error behaviour -/

/-- Claim C10 (counterexample): with `server_metadata =
{managedProjectIds: null}` the key is present and `null` is not an array of
strings, yet `listManagedProjectIds` returns the empty list instead of
throwing — the `?? []` fallback also swallows a present-but-null value, so
the claim as stated is false. -/
theorem C10_counterexample :
    listManagedProjectIds (.val (.obj [("managedProjectIds", JsonVal.null)])) = .ok [] ∧
    isStringArray JsonVal.null = false :=
  ⟨rfl, rfl⟩

/-- Claim C10 (amended): `listManagedProjectIds` returns the empty list when
`server_metadata` is `null`, an object lacking a `managedProjectIds` key, or
an object whose `managedProjectIds` is `null`; it throws a
`StackAssertionError` when `server_metadata` is a non-null non-object value
(e.g. a string or `undefined`), or when `managedProjectIds` is present with
a non-null value that is not an array of strings. -/
theorem C10_amended :
    (listManagedProjectIds (JsLike.val JsonVal.null) = .ok []) ∧
    (∀ fields, jsLookup fields "managedProjectIds" = none →
      listManagedProjectIds (JsLike.val (JsonVal.obj fields)) = .ok []) ∧
    (∀ fields, jsLookup fields "managedProjectIds" = some JsonVal.null →
      listManagedProjectIds (JsLike.val (JsonVal.obj fields)) = .ok []) ∧
    (∀ md, jsTypeof md ≠ "object" →
      listManagedProjectIds md =
        .error (.invariant "Invalid server metadata, did something go wrong?")) ∧
    (∀ fields v, jsLookup fields "managedProjectIds" = some v → v ≠ JsonVal.null →
      isStringArray v = false →
      listManagedProjectIds (JsLike.val (JsonVal.obj fields)) =
        .error (.invariant "Invalid server metadata, did something go wrong? Expected string array")) := by
  refine ⟨rfl, ?_, ?_, ?_, ?_⟩
  · intro fields h
    rw [listManagedProjectIds]
    simp only [jsTypeof, ne_eq, not_true_eq_false, if_false, h]
    rfl
  · intro fields h
    rw [listManagedProjectIds]
    simp only [jsTypeof, ne_eq, not_true_eq_false, if_false, h]
    rfl
  · intro md h
    cases md with
    | undef => rfl
    | val v =>
      cases v with
      | null => exact absurd rfl h
      | bool b => rfl
      | num n => rfl
      | str s => rfl
      | arr xs => exact absurd rfl h
      | obj o => exact absurd rfl h
  · intro fields v h hne hsa
    rw [listManagedProjectIds]
    simp only [jsTypeof, ne_eq, not_true_eq_false, if_false, h]
    cases v with
    | null => exact absurd rfl hne
    | bool b => simp [isStringArray]
    | num n => simp [isStringArray]
    | str s => simp [isStringArray]
    | arr xs => simp [hsa]
    | obj o => simp [isStringArray]

/-- Claim C10 witness: the amended characterization evaluated at concrete
metadata values. -/
theorem C10_amended_witness :
    (jsLookup [("a", JsonVal.num 1)] "managedProjectIds" = none ∧
      listManagedProjectIds (JsLike.val (JsonVal.obj [("a", JsonVal.num 1)])) = .ok []) ∧
    (jsTypeof (JsLike.val (JsonVal.str "oops")) ≠ "object" ∧
      listManagedProjectIds (JsLike.val (JsonVal.str "oops")) =
        .error (.invariant "Invalid server metadata, did something go wrong?")) ∧
    (jsLookup [("managedProjectIds", JsonVal.num 7)] "managedProjectIds" = some (JsonVal.num 7) ∧
      listManagedProjectIds (JsLike.val (JsonVal.obj [("managedProjectIds", JsonVal.num 7)])) =
        .error (.invariant "Invalid server metadata, did something go wrong? Expected string array")) :=
  ⟨⟨rfl, C10_amended.2.1 _ rfl⟩,
   ⟨by decide, C10_amended.2.2.2.1 _ (by decide)⟩,
   ⟨rfl, C10_amended.2.2.2.2 _ _ rfl (by intro h; cases h) rfl⟩⟩

/-! ### Claim C1: exactly-one-of variant resolution -/

/-- An OAuth provider config with BOTH variants populated. -/
def bothVariantProvider : OAuthProviderConfigDB where
  id := "google"
  proxiedOAuthConfig := some { type := "GOOGLE" }
  standardOAuthConfig := some
    { type := "GOOGLE", clientId := "ci", clientSecret := "cs",
      facebookConfigId := none, microsoftTenantId := none }

/-- An email service config with BOTH variants populated. -/
def bothVariantEmail : EmailServiceConfigDB where
  proxiedEmailServiceConfig := some ()
  standardEmailServiceConfig := some
    { host := "h", port := 1, username := "u", password := "pw",
      senderEmail := "e", senderName := "n" }

/-- A full project graph containing the two both-variant records above. -/
def bothVariantGraph : ProjectDB where
  id := "proj"
  displayName := "d"
  description := none
  createdAtMillis := 0
  userCount := 0
  isProductionMode := false
  config :=
    { id := "cfg", allowLocalhost := true, signUpEnabled := true, createTeamOnSignUp := false,
      clientTeamCreationEnabled := false, clientUserDeletionEnabled := false,
      legacyGlobalJwtSigning := false,
      domains := [], oauthProviderConfigs := [bothVariantProvider],
      authMethodConfigs :=
        [{ id := "amc", enabled := true, oauthProviderConfig := some bothVariantProvider,
           otpConfig := none, passwordConfig := none, passkeyConfig := none }],
      connectedAccountConfigs := [],
      emailServiceConfig := some bothVariantEmail,
      permissions := [], teamCreateDefaultSystemPermissions := [],
      teamMemberDefaultSystemPermissions := [] }

/-- Claim C1 (counterexample): a graph whose OAuth provider config and email
service config both have BOTH variants populated is accepted by the reader
without any error — the proxied branch is checked first and wins — so the
records are silently coerced to the shared variant, contradicting the claim
that ConfigReader fails with an InvariantViolation whenever both variants
are populated. -/
theorem C1_counterexample :
    ∃ v, projectPrismaToCrud bothVariantGraph = .ok v ∧
      v.config.oauth_providers = [{ id := "google", enabled := true, type := "shared" }] ∧
      v.config.email_config = .shared :=
  ⟨_, rfl, by decide, by decide⟩

theorem resolveOAuthProvider_some (pid : String) (amc : AuthMethodConfigDB)
    (pc : OAuthProviderConfigDB) (hpc : amc.oauthProviderConfig = some pc) :
    resolveOAuthProvider pid amc =
      (match pc.proxiedOAuthConfig with
       | some proxied =>
         .ok (some { id := typedToLowercase proxied.type, enabled := amc.enabled, type := "shared" })
       | none =>
         match pc.standardOAuthConfig with
         | some std =>
           .ok (some {
             id := typedToLowercase std.type,
             enabled := amc.enabled,
             type := "standard",
             client_id := some std.clientId,
             client_secret := some std.clientSecret,
             facebook_config_id := std.facebookConfigId,
             microsoft_tenant_id := std.microsoftTenantId })
         | none => .error (.invariant (oauthVariantInvariantMsg amc.id pid))) := by
  rw [resolveOAuthProvider, hpc]

theorem resolveEmailConfig_some (pid : String) (esc : EmailServiceConfigDB) :
    resolveEmailConfig pid (some esc) =
      (match esc.proxiedEmailServiceConfig with
       | some _ => .ok .shared
       | none =>
         match esc.standardEmailServiceConfig with
         | some std =>
           .ok (.standard std.host std.port std.username std.password std.senderEmail
             std.senderName)
         | none => .error (.invariant (emailVariantInvariantMsg pid))) := rfl

/-- Claim C1 (amended): for an OAuthProviderConfig or EmailServiceConfig
sub-record handed to ConfigReader, if NEITHER variant is populated the
reader fails with an InvariantViolation identifying the owning record (and
the whole flattening aborts); if both variants are populated, the proxied
(shared) branch silently takes precedence and no error is raised. -/
theorem C1_variant_resolution (pid : String) (amc : AuthMethodConfigDB)
    (pc : OAuthProviderConfigDB) (hpc : amc.oauthProviderConfig = some pc)
    (esc : EmailServiceConfigDB) (g : ProjectDB) :
    (pc.proxiedOAuthConfig = none → pc.standardOAuthConfig = none →
      resolveOAuthProvider pid amc = .error (.invariant (oauthVariantInvariantMsg amc.id pid))) ∧
    (∀ px, pc.proxiedOAuthConfig = some px →
      resolveOAuthProvider pid amc =
        .ok (some { id := typedToLowercase px.type, enabled := amc.enabled, type := "shared" })) ∧
    (esc.proxiedEmailServiceConfig = none → esc.standardEmailServiceConfig = none →
      resolveEmailConfig pid (some esc) = .error (.invariant (emailVariantInvariantMsg pid))) ∧
    (∀ pe, esc.proxiedEmailServiceConfig = some pe →
      resolveEmailConfig pid (some esc) = .ok .shared) ∧
    (amc ∈ g.config.authMethodConfigs → pc.proxiedOAuthConfig = none →
      pc.standardOAuthConfig = none → ∃ e, projectPrismaToCrud g = .error e) := by
  refine ⟨?_, ?_, ?_, ?_, ?_⟩
  · intro h1 h2
    rw [resolveOAuthProvider_some pid amc pc hpc, h1, h2]
  · intro px h1
    rw [resolveOAuthProvider_some pid amc pc hpc, h1]
  · intro h1 h2
    rw [resolveEmailConfig_some, h1, h2]
  · intro pe h1
    rw [resolveEmailConfig_some, h1]
  · intro hmem h1 h2
    exact projectPrismaToCrud_error_of_mem hmem
      (by rw [resolveOAuthProvider_some g.id amc pc hpc, h1, h2])

/-- Claim C1 witness: the amended resolution behaviour evaluated on a
concrete neither-variant provider record and a concrete both-variant email
record. -/
theorem C1_variant_resolution_witness :
    resolveOAuthProvider "p"
        { id := "a", enabled := true,
          oauthProviderConfig := some
            { id := "google", proxiedOAuthConfig := none, standardOAuthConfig := none },
          otpConfig := none, passwordConfig := none, passkeyConfig := none } =
      .error (.invariant (oauthVariantInvariantMsg "a" "p")) ∧
    resolveEmailConfig "p" (some bothVariantEmail) = .ok .shared :=
  ⟨(C1_variant_resolution "p" _
      { id := "google", proxiedOAuthConfig := none, standardOAuthConfig := none } rfl
      bothVariantEmail bothVariantGraph).1 rfl rfl,
   (C1_variant_resolution "p"
      { id := "a", enabled := true,
        oauthProviderConfig := some
          { id := "google", proxiedOAuthConfig := none, standardOAuthConfig := none },
        otpConfig := none, passwordConfig := none, passkeyConfig := none }
      { id := "google", proxiedOAuthConfig := none, standardOAuthConfig := none } rfl
      bothVariantEmail bothVariantGraph).2.2.2.1 () rfl⟩

/-! ### Claim C3: the flattened view is sorted -/

/-- Claim C3: every view accepted by ConfigReader has `oauth_providers`
sorted ascending by id, `domains` sorted ascending by domain, both
default-permission lists sorted ascending by id, and
`enabled_oauth_providers` equal to the enabled-filtered subset of the sorted
`oauth_providers` list (order preserved, not re-sorted). -/
theorem C3_view_sorted (g : ProjectDB) (v : ProjectView)
    (h : projectPrismaToCrud g = .ok v) :
    List.Sorted oauthLe v.config.oauth_providers ∧
    List.Sorted domainLe v.config.domains ∧
    List.Sorted permIdLe v.config.team_creator_default_permissions ∧
    List.Sorted permIdLe v.config.team_member_default_permissions ∧
    v.config.enabled_oauth_providers =
      v.config.oauth_providers.filter (fun provider => provider.enabled) := by
  obtain ⟨mapped, emailConfig, _, _, hoauth, henabled, _, hdomains, hcreator, hmember⟩ :=
    projectPrismaToCrud_ok_elim h
  refine ⟨?_, ?_, ?_, ?_, henabled⟩
  · rw [hoauth]
    exact List.sorted_insertionSort oauthLe _
  · rw [hdomains]
    exact List.sorted_insertionSort domainLe _
  · rw [hcreator]
    exact List.Pairwise.map _ (fun a b hab => hab) (List.sorted_insertionSort permIdLe _)
  · rw [hmember]
    exact List.Pairwise.map _ (fun a b hab => hab) (List.sorted_insertionSort permIdLe _)

/-- A graph with deliberately unsorted domains, providers and permissions. -/
def unsortedGraph : ProjectDB where
  id := "proj"
  displayName := "d"
  description := none
  createdAtMillis := 0
  userCount := 0
  isProductionMode := false
  config :=
    { id := "cfg", allowLocalhost := true, signUpEnabled := true, createTeamOnSignUp := false,
      clientTeamCreationEnabled := false, clientUserDeletionEnabled := false,
      legacyGlobalJwtSigning := false,
      domains := [{ domain := "z.example.com", handlerPath := "/h" },
        { domain := "a.example.com", handlerPath := "/h" }],
      oauthProviderConfigs := [],
      authMethodConfigs :=
        [{ id := "m1", enabled := true,
           oauthProviderConfig := some
             { id := "spotify", proxiedOAuthConfig := some { type := "SPOTIFY" },
               standardOAuthConfig := none },
           otpConfig := none, passwordConfig := none, passkeyConfig := none },
         { id := "m2", enabled := false,
           oauthProviderConfig := some
             { id := "github", proxiedOAuthConfig := some { type := "GITHUB" },
               standardOAuthConfig := none },
           otpConfig := none, passwordConfig := none, passkeyConfig := none },
         { id := "m3", enabled := true,
           oauthProviderConfig := some
             { id := "google", proxiedOAuthConfig := some { type := "GOOGLE" },
               standardOAuthConfig := none },
           otpConfig := none, passwordConfig := none, passkeyConfig := none }],
      connectedAccountConfigs := [],
      emailServiceConfig := some
        { proxiedEmailServiceConfig := some (), standardEmailServiceConfig := none },
      permissions :=
        [{ projectId := "proj", projectConfigId := "cfg", queryableId := "zrole",
           description := "", scope := "TEAM", isDefaultTeamCreatorPermission := true,
           isDefaultTeamMemberPermission := true, parentEdges := [] },
         { projectId := "proj", projectConfigId := "cfg", queryableId := "arole",
           description := "", scope := "TEAM", isDefaultTeamCreatorPermission := true,
           isDefaultTeamMemberPermission := false, parentEdges := [] }],
      teamCreateDefaultSystemPermissions := [.REMOVE_MEMBERS],
      teamMemberDefaultSystemPermissions := [.READ_MEMBERS, .INVITE_MEMBERS] }

/-- Claim C3 witness: the sortedness theorem applied to the concrete
unsorted graph. -/
theorem C3_view_sorted_witness :
    ∃ v, projectPrismaToCrud unsortedGraph = .ok v ∧
      (List.Sorted oauthLe v.config.oauth_providers ∧
       List.Sorted domainLe v.config.domains ∧
       List.Sorted permIdLe v.config.team_creator_default_permissions ∧
       List.Sorted permIdLe v.config.team_member_default_permissions ∧
       v.config.enabled_oauth_providers =
         v.config.oauth_providers.filter (fun provider => provider.enabled)) :=
  ⟨_, rfl, C3_view_sorted unsortedGraph _ rfl⟩

/-! ### Properties of the write-side builders -/

theorem ensureSharedProvider_error {id : String} {e : Err}
    (h : ensureSharedProvider id = .error e) : ∃ m, e = .validation m := by
  rw [ensureSharedProvider] at h
  by_cases hmem : id ∈ sharedProviders
  · rw [if_pos hmem] at h
    cases h
  · rw [if_neg hmem] at h
    injection h with h2
    exact ⟨_, h2.symm⟩

theorem ensureStandardProvider_error {id : String} {e : Err}
    (h : ensureStandardProvider id = .error e) : ∃ m, e = .validation m := by
  rw [ensureStandardProvider] at h
  by_cases hmem : id ∈ standardProviders
  · rw [if_pos hmem] at h
    cases h
  · rw [if_neg hmem] at h
    injection h with h2
    exact ⟨_, h2.symm⟩

theorem requireField_error {field : Option α} {msg : String} {e : Err}
    (h : requireField field msg = .error e) : e = .validation msg := by
  cases field with
  | some v => cases h
  | none =>
    injection h with h2
    exact h2.symm

theorem requireField_none {msg : String} :
    requireField (none : Option α) msg = .error (.validation msg) := rfl

theorem reqTypeNeStandard {item : OAuthProviderRequest} (h : item.type = .shared) :
    ¬item.type = .standard := by
  rw [h]
  intro h2
  cases h2

theorem reqTypeNeShared {item : OAuthProviderRequest} (h : item.type = .standard) :
    ¬item.type = .shared := by
  rw [h]
  intro h2
  cases h2

theorem exc_pure_bind {a : α} {f : α → Except Err β} :
    (pure a : Except Err α) >>= f = f a := rfl

theorem buildOAuthProviderConfig_shared {item : OAuthProviderRequest} (h : item.type = .shared) :
    buildOAuthProviderConfig item =
      (match ensureSharedProvider item.id with
       | .ok t => .ok {
           id := item.id,
           proxiedOAuthConfig := some { type := typedToUppercase t },
           standardOAuthConfig := none }
       | .error e => .error e) := by
  rw [buildOAuthProviderConfig, if_pos h]
  cases he : ensureSharedProvider item.id with
  | error e => rfl
  | ok t =>
    simp only [exc_bind_ok, exc_pure_bind]
    rw [if_neg (reqTypeNeStandard h)]
    rfl

theorem buildOAuthProviderConfig_standard {item : OAuthProviderRequest}
    (h : item.type = .standard) :
    buildOAuthProviderConfig item =
      (do
        let t ← ensureStandardProvider item.id
        let clientId ← requireField item.client_id "client_id is required"
        let clientSecret ← requireField item.client_secret "client_secret is required"
        pure {
          id := item.id,
          proxiedOAuthConfig := none,
          standardOAuthConfig := some {
            type := typedToUppercase t, clientId := clientId, clientSecret := clientSecret,
            facebookConfigId := item.facebook_config_id,
            microsoftTenantId := item.microsoft_tenant_id } }) := by
  rw [buildOAuthProviderConfig, if_neg (reqTypeNeShared h)]
  simp only [exc_pure_bind]
  rw [if_pos h]

theorem buildOAuthProviderConfig_ok_id {item : OAuthProviderRequest}
    {cfg : OAuthProviderConfigDB} (h : buildOAuthProviderConfig item = .ok cfg) :
    cfg.id = item.id := by
  cases hty : item.type with
  | shared =>
    rw [buildOAuthProviderConfig_shared hty] at h
    cases he : ensureSharedProvider item.id with
    | ok t =>
      rw [he] at h
      injection h with h2
      rw [← h2]
    | error e =>
      rw [he] at h
      cases h
  | standard =>
    rw [buildOAuthProviderConfig_standard hty] at h
    cases he : ensureStandardProvider item.id with
    | error e =>
      rw [he] at h
      cases h
    | ok t =>
      rw [he, exc_bind_ok] at h
      cases hci : item.client_id with
      | none =>
        rw [hci] at h
        cases h
      | some ci =>
        rw [hci] at h
        cases hcs : item.client_secret with
        | none =>
          rw [hcs] at h
          cases h
        | some cs =>
          rw [hcs] at h
          injection h with h2
          rw [← h2]

theorem buildOAuthProviderConfig_ok_variant {item : OAuthProviderRequest}
    {cfg : OAuthProviderConfigDB} (h : buildOAuthProviderConfig item = .ok cfg) :
    cfg.proxiedOAuthConfig.isSome = true ∨
      (cfg.proxiedOAuthConfig = none ∧ cfg.standardOAuthConfig.isSome = true) := by
  cases hty : item.type with
  | shared =>
    rw [buildOAuthProviderConfig_shared hty] at h
    cases he : ensureSharedProvider item.id with
    | ok t =>
      rw [he] at h
      injection h with h2
      rw [← h2]
      exact Or.inl rfl
    | error e =>
      rw [he] at h
      cases h
  | standard =>
    rw [buildOAuthProviderConfig_standard hty] at h
    cases he : ensureStandardProvider item.id with
    | error e =>
      rw [he] at h
      cases h
    | ok t =>
      rw [he, exc_bind_ok] at h
      cases hci : item.client_id with
      | none =>
        rw [hci] at h
        cases h
      | some ci =>
        rw [hci] at h
        cases hcs : item.client_secret with
        | none =>
          rw [hcs] at h
          cases h
        | some cs =>
          rw [hcs] at h
          injection h with h2
          rw [← h2]
          exact Or.inr ⟨rfl, rfl⟩

theorem buildOAuthProviderConfig_error_validation {item : OAuthProviderRequest} {e : Err}
    (h : buildOAuthProviderConfig item = .error e) : ∃ m, e = .validation m := by
  cases hty : item.type with
  | shared =>
    rw [buildOAuthProviderConfig_shared hty] at h
    cases he : ensureSharedProvider item.id with
    | ok t =>
      rw [he] at h
      cases h
    | error e2 =>
      rw [he] at h
      injection h with h2
      rw [← h2]
      exact ensureSharedProvider_error he
  | standard =>
    rw [buildOAuthProviderConfig_standard hty] at h
    cases he : ensureStandardProvider item.id with
    | error e2 =>
      rw [he] at h
      injection h with h2
      rw [← h2]
      exact ensureStandardProvider_error he
    | ok t =>
      rw [he, exc_bind_ok] at h
      cases hci : item.client_id with
      | none =>
        rw [hci] at h
        injection h with h2
        exact ⟨_, h2.symm⟩
      | some ci =>
        rw [hci] at h
        cases hcs : item.client_secret with
        | none =>
          rw [hcs] at h
          injection h with h2
          exact ⟨_, h2.symm⟩
        | some cs =>
          rw [hcs] at h
          cases h

theorem buildOAuthProviderConfig_standard_missing_error {item : OAuthProviderRequest}
    (hty : item.type = .standard)
    (hmiss : item.client_id = none ∨ item.client_secret = none) :
    ∃ e, buildOAuthProviderConfig item = .error e := by
  rw [buildOAuthProviderConfig_standard hty]
  cases he : ensureStandardProvider item.id with
  | error e2 => exact ⟨e2, rfl⟩
  | ok t =>
    rw [exc_bind_ok]
    cases hci : item.client_id with
    | none => exact ⟨.validation "client_id is required", rfl⟩
    | some ci =>
      cases hcs : item.client_secret with
      | none => exact ⟨.validation "client_secret is required", rfl⟩
      | some cs =>
        rcases hmiss with hm | hm
        · rw [hci] at hm
          cases hm
        · rw [hcs] at hm
          cases hm

theorem buildEmailServiceConfig_none_eq :
    buildEmailServiceConfig none =
      .ok { proxiedEmailServiceConfig := some (), standardEmailServiceConfig := none } := rfl

theorem emailTypeNeStandard {ec : EmailConfigRequest} (h : ec.type = .shared) :
    ¬ec.type = .standard := by
  rw [h]
  intro h2
  cases h2

theorem emailTypeNeShared {ec : EmailConfigRequest} (h : ec.type = .standard) :
    ¬ec.type = .shared := by
  rw [h]
  intro h2
  cases h2

theorem buildEmailServiceConfig_shared {ec : EmailConfigRequest} (h : ec.type = .shared) :
    buildEmailServiceConfig (some ec) =
      .ok { proxiedEmailServiceConfig := some (), standardEmailServiceConfig := none } := by
  simp only [buildEmailServiceConfig]
  rw [if_pos h, if_neg (emailTypeNeStandard h)]
  rfl

theorem buildEmailServiceConfig_standard {ec : EmailConfigRequest} (h : ec.type = .standard) :
    buildEmailServiceConfig (some ec) =
      (do
        let host ← requireField ec.host "host is required"
        let port ← requireField ec.port "port is required"
        let username ← requireField ec.username "username is required"
        let password ← requireField ec.password "password is required"
        let senderEmail ← requireField ec.sender_email "sender_email is required"
        let senderName ← requireField ec.sender_name "sender_name is required"
        pure {
          proxiedEmailServiceConfig := none,
          standardEmailServiceConfig := some {
            host := host, port := port, username := username, password := password,
            senderEmail := senderEmail, senderName := senderName } }) := by
  simp only [buildEmailServiceConfig]
  rw [if_neg (emailTypeNeShared h), if_pos h]
  rfl

theorem requireField_cases (field : Option α) (msg : String) :
    (field = none ∧ requireField field msg = .error (.validation msg)) ∨
      ∃ v, field = some v ∧ requireField field msg = .ok v := by
  cases field with
  | none => exact Or.inl ⟨rfl, rfl⟩
  | some v => exact Or.inr ⟨v, rfl, rfl⟩

theorem buildEmailServiceConfig_ok_variant {oec : Option EmailConfigRequest}
    {e : EmailServiceConfigDB} (h : buildEmailServiceConfig oec = .ok e) :
    e.proxiedEmailServiceConfig.isSome = true ∨
      (e.proxiedEmailServiceConfig = none ∧ e.standardEmailServiceConfig.isSome = true) := by
  cases oec with
  | none =>
    rw [buildEmailServiceConfig_none_eq] at h
    injection h with h2
    rw [← h2]
    exact Or.inl rfl
  | some ec =>
    cases hty : ec.type with
    | shared =>
      rw [buildEmailServiceConfig_shared hty] at h
      injection h with h2
      rw [← h2]
      exact Or.inl rfl
    | standard =>
      rw [buildEmailServiceConfig_standard hty] at h
      rcases requireField_cases ec.host "host is required" with ⟨_, hf⟩ | ⟨v1, _, hf⟩ <;>
        rw [hf] at h
      · cases h
      rw [exc_bind_ok] at h
      rcases requireField_cases ec.port "port is required" with ⟨_, hf2⟩ | ⟨v2, _, hf2⟩ <;>
        rw [hf2] at h
      · cases h
      rw [exc_bind_ok] at h
      rcases requireField_cases ec.username "username is required" with ⟨_, hf3⟩ | ⟨v3, _, hf3⟩ <;>
        rw [hf3] at h
      · cases h
      rw [exc_bind_ok] at h
      rcases requireField_cases ec.password "password is required" with ⟨_, hf4⟩ | ⟨v4, _, hf4⟩ <;>
        rw [hf4] at h
      · cases h
      rw [exc_bind_ok] at h
      rcases requireField_cases ec.sender_email "sender_email is required" with
        ⟨_, hf5⟩ | ⟨v5, _, hf5⟩ <;> rw [hf5] at h
      · cases h
      rw [exc_bind_ok] at h
      rcases requireField_cases ec.sender_name "sender_name is required" with
        ⟨_, hf6⟩ | ⟨v6, _, hf6⟩ <;> rw [hf6] at h
      · cases h
      rw [exc_bind_ok] at h
      injection h with h2
      rw [← h2]
      exact Or.inr ⟨rfl, rfl⟩

theorem buildEmailServiceConfig_error_validation {oec : Option EmailConfigRequest} {e : Err}
    (h : buildEmailServiceConfig oec = .error e) : ∃ m, e = .validation m := by
  cases oec with
  | none => cases h
  | some ec =>
    cases hty : ec.type with
    | shared =>
      rw [buildEmailServiceConfig_shared hty] at h
      cases h
    | standard =>
      rw [buildEmailServiceConfig_standard hty] at h
      rcases requireField_cases ec.host "host is required" with ⟨_, hf⟩ | ⟨v1, _, hf⟩ <;>
        rw [hf] at h
      · injection h with h2
        exact ⟨_, h2.symm⟩
      rw [exc_bind_ok] at h
      rcases requireField_cases ec.port "port is required" with ⟨_, hf2⟩ | ⟨v2, _, hf2⟩ <;>
        rw [hf2] at h
      · injection h with h2
        exact ⟨_, h2.symm⟩
      rw [exc_bind_ok] at h
      rcases requireField_cases ec.username "username is required" with ⟨_, hf3⟩ | ⟨v3, _, hf3⟩ <;>
        rw [hf3] at h
      · injection h with h2
        exact ⟨_, h2.symm⟩
      rw [exc_bind_ok] at h
      rcases requireField_cases ec.password "password is required" with ⟨_, hf4⟩ | ⟨v4, _, hf4⟩ <;>
        rw [hf4] at h
      · injection h with h2
        exact ⟨_, h2.symm⟩
      rw [exc_bind_ok] at h
      rcases requireField_cases ec.sender_email "sender_email is required" with
        ⟨_, hf5⟩ | ⟨v5, _, hf5⟩ <;> rw [hf5] at h
      · injection h with h2
        exact ⟨_, h2.symm⟩
      rw [exc_bind_ok] at h
      rcases requireField_cases ec.sender_name "sender_name is required" with
        ⟨_, hf6⟩ | ⟨v6, _, hf6⟩ <;> rw [hf6] at h
      · injection h with h2
        exact ⟨_, h2.symm⟩
      rw [exc_bind_ok] at h
      cases h

theorem exc_bind_error_elim {x : Except Err α} {f : α → Except Err β} {e : Err}
    (h : x >>= f = .error e) : x = .error e ∨ ∃ a, x = .ok a ∧ f a = .error e := by
  cases x with
  | ok a => exact Or.inr ⟨a, rfl, h⟩
  | error e2 =>
    cases h
    exact Or.inl rfl

/-! ### Inversion of `buildProject`, `createProjectTx` and `createProject` -/

theorem buildProject_ok_elim {newId newConfigId : String} {createdAtMillis : Nat}
    {data : CreateRequest} {proj : ProjectDB}
    (h : buildProject newId newConfigId createdAtMillis data = .ok proj) :
    ∃ cfgs email,
      mapExcept buildOAuthProviderConfig ((data.config.bind (·.oauth_providers)).getD []) =
        .ok cfgs ∧
      buildEmailServiceConfig (data.config.bind (·.email_config)) = .ok email ∧
      proj.config.oauthProviderConfigs = cfgs ∧
      proj.config.emailServiceConfig = some email ∧
      proj.config.domains = ((data.config.bind (·.domains)).getD []).map
        (fun item => { domain := item.domain, handlerPath := item.handler_path }) ∧
      proj.id = newId ∧
      proj.config.id = newConfigId ∧
      proj.config.authMethodConfigs = [] ∧
      proj.config.connectedAccountConfigs = [] ∧
      proj.config.permissions = [] := by
  rw [buildProject, exc_bind_ok_iff] at h
  obtain ⟨cfgs, hc, h⟩ := h
  rw [exc_bind_ok_iff] at h
  obtain ⟨email, he, h⟩ := h
  cases h
  exact ⟨cfgs, email, hc, he, rfl, rfl, rfl, rfl, rfl, rfl, rfl, rfl⟩

theorem buildProject_error_validation {newId newConfigId : String} {createdAtMillis : Nat}
    {data : CreateRequest} {e : Err}
    (h : buildProject newId newConfigId createdAtMillis data = .error e) :
    ∃ m, e = .validation m := by
  rw [buildProject] at h
  rcases exc_bind_error_elim h with h2 | ⟨cfgs, _, h2⟩
  · obtain ⟨x, _, hx⟩ := mapExcept_error_mem h2
    exact buildOAuthProviderConfig_error_validation hx
  · rcases exc_bind_error_elim h2 with h3 | ⟨email, _, h3⟩
    · exact buildEmailServiceConfig_error_validation h3
    · cases h3

theorem createProjectTx_ok_elim {newId newConfigId : String} {createdAtMillis : Nat}
    {s : Store} {ownerIds : List String} {data : CreateRequest} {s2 : Store} {proj : ProjectDB}
    (h : createProjectTx newId newConfigId createdAtMillis s ownerIds data = .ok (s2, proj)) :
    ∃ proj0 amcs cacs users anomalies,
      buildProject newId newConfigId createdAtMillis data = .ok proj0 ∧
      (proj0.config.oauthProviderConfigs.map (·.id)).Nodup ∧
      (proj0.config.domains.map (·.domain)).Nodup ∧
      buildAuthMethodConfigs data.config proj0.config.oauthProviderConfigs = .ok amcs ∧
      buildConnectedAccountConfigs data.config proj0.config.oauthProviderConfigs = .ok cacs ∧
      processOwners newId ownerIds s.users s.anomalies ownerIds = .ok (users, anomalies) ∧
      proj = { proj0 with config := { proj0.config with
        authMethodConfigs := amcs,
        connectedAccountConfigs := cacs,
        permissions := defaultPermissions newId newConfigId } } ∧
      s2 = { projects := s.projects ++ [proj], users := users, anomalies := anomalies } := by
  rw [createProjectTx, exc_bind_ok_iff] at h
  obtain ⟨proj0, hp, h⟩ := h
  by_cases hn1 : (proj0.config.oauthProviderConfigs.map (·.id)).Nodup
  · rw [if_pos hn1, exc_pure_bind] at h
    by_cases hn2 : (proj0.config.domains.map (·.domain)).Nodup
    · rw [if_pos hn2, exc_pure_bind, exc_bind_ok_iff] at h
      obtain ⟨amcs, ha, h⟩ := h
      rw [exc_bind_ok_iff] at h
      obtain ⟨cacs, hc, h⟩ := h
      rw [exc_bind_ok_iff] at h
      obtain ⟨users2, ho, h⟩ := h
      obtain ⟨users, anomalies⟩ := users2
      injection h with h2
      injection h2 with h3 h4
      exact ⟨proj0, amcs, cacs, users, anomalies, hp, hn1, hn2, ha, hc, ho,
        h4.symm, by rw [← h3, ← h4]⟩
    · rw [if_neg hn2] at h
      cases h
  · rw [if_neg hn1] at h
    cases h

theorem createProject_ok_elim {newId newConfigId : String} {createdAtMillis : Nat}
    {s : Store} {ownerIds : List String} {data : CreateRequest} {s2 : Store} {view : ProjectView}
    (h : createProject newId newConfigId createdAtMillis s ownerIds data = (s2, .ok view)) :
    ∃ proj, createProjectTx newId newConfigId createdAtMillis s ownerIds data = .ok (s2, proj) ∧
      projectPrismaToCrud proj = .ok view := by
  rw [createProject] at h
  cases htx : createProjectTx newId newConfigId createdAtMillis s ownerIds data with
  | error e =>
    rw [htx] at h
    injection h with h1 h2
    cases h2
  | ok p =>
    obtain ⟨s3, proj⟩ := p
    rw [htx] at h
    injection h with h1 h2
    subst h1
    exact ⟨proj, rfl, h2⟩

theorem createProject_error_rollback {newId newConfigId : String} {createdAtMillis : Nat}
    {s : Store} {ownerIds : List String} {data : CreateRequest} {e : Err}
    (h : createProjectTx newId newConfigId createdAtMillis s ownerIds data = .error e) :
    createProject newId newConfigId createdAtMillis s ownerIds data = (s, .error e) := by
  rw [createProject, h]

/-! ### Claim C4: missing standard credentials reject the whole request -/

/-- Claim C4: a creation request containing a standard OAuth provider entry
with a missing `client_id` or `client_secret` fails with a ValidationError
(caller-input error, not an InvariantViolation) and performs no writes: the
store is returned unchanged, so no Project row exists afterwards. -/
theorem C4_standard_validation (newId newConfigId : String) (createdAtMillis : Nat)
    (s : Store) (ownerIds : List String) (data : CreateRequest)
    (cfg : ConfigRequest) (provs : List OAuthProviderRequest) (item : OAuthProviderRequest)
    (hcfg : data.config = some cfg) (hprovs : cfg.oauth_providers = some provs)
    (hmem : item ∈ provs) (htype : item.type = .standard)
    (hmiss : item.client_id = none ∨ item.client_secret = none) :
    ∃ msg, createProject newId newConfigId createdAtMillis s ownerIds data =
      (s, .error (.validation msg)) := by
  obtain ⟨e, he⟩ := buildOAuthProviderConfig_standard_missing_error htype hmiss
  have hprovs2 : (data.config.bind (·.oauth_providers)).getD [] = provs := by
    rw [hcfg]
    show (cfg.oauth_providers).getD [] = provs
    rw [hprovs]
    rfl
  obtain ⟨e2, x2, hx2, hex2, hmap⟩ := mapExcept_error_of_mem hmem he
  have hbp : buildProject newId newConfigId createdAtMillis data = .error e2 := by
    rw [buildProject, hprovs2, hmap, exc_bind_error]
  obtain ⟨m, hm⟩ := buildOAuthProviderConfig_error_validation hex2
  have htx : createProjectTx newId newConfigId createdAtMillis s ownerIds data = .error e2 := by
    rw [createProjectTx, hbp, exc_bind_error]
  refine ⟨m, ?_⟩
  rw [createProject_error_rollback htx, hm]

/-- The item of the C4 witness request: standard github with no client
secret. -/
def missingSecretItem : OAuthProviderRequest where
  id := "github"
  type := .standard
  enabled := true
  client_id := some "x"

/-- The C4 witness request. -/
def missingSecretRequest : CreateRequest where
  display_name := "Acme"
  config := some { oauth_providers := some [missingSecretItem] }

/-- An empty store. -/
def emptyStore : Store where
  projects := []
  users := []
  anomalies := []

/-- Claim C4 witness: a concrete standard github entry with no
`client_secret` rejects the request and leaves the store unchanged. -/
theorem C4_standard_validation_witness :
    ∃ msg, createProject "p1" "c1" 0 emptyStore ["u1"] missingSecretRequest =
      (emptyStore, .error (.validation msg)) :=
  C4_standard_validation "p1" "c1" 0 emptyStore ["u1"] missingSecretRequest
    { oauth_providers := some [missingSecretItem] } [missingSecretItem] missingSecretItem
    rfl rfl (List.mem_cons_self _ _) rfl (Or.inr rfl)

/-! ### Request-entry lookup and the mirrored OAuth rows -/

theorem find?_id_of_nodup {provs : List OAuthProviderRequest}
    (hn : (provs.map (·.id)).Nodup) {p : OAuthProviderRequest} (hp : p ∈ provs) :
    provs.find? (fun q => q.id = p.id) = some p := by
  induction provs with
  | nil => cases hp
  | cons q rest ih =>
    rw [List.map_cons, List.nodup_cons] at hn
    rcases List.mem_cons.mp hp with rfl | hp2
    · simp [List.find?_cons]
    · have hne : ¬(q.id = p.id) := fun he => hn.1 (he ▸ List.mem_map_of_mem _ hp2)
      simp only [List.find?_cons, hne, decide_eq_false, Bool.false_eq_true]
      exact ih hn.2 hp2

theorem findRequestEntry_eq_of_nodup {provs : List OAuthProviderRequest}
    (hn : (provs.map (·.id)).Nodup) {p : OAuthProviderRequest} (hp : p ∈ provs)
    {item : OAuthProviderConfigDB} (hid : item.id = p.id) :
    findRequestEntry provs item = .ok p := by
  rw [findRequestEntry, hid, find?_id_of_nodup hn hp]

theorem findRequestEntry_error_of_absent {provs : List OAuthProviderRequest}
    {item : OAuthProviderConfigDB} (habs : ∀ p ∈ provs, ¬p.id = item.id) :
    findRequestEntry provs item = .error (.invariant "oauth provider not found") := by
  rw [findRequestEntry, List.find?_eq_none.mpr]
  intro q hq
  simp only [decide_eq_true_eq]
  exact habs q hq

theorem forall₂_exists_left {R : α → β → Prop} :
    ∀ {l : List α} {ys : List β}, List.Forall₂ R l ys → ∀ {y}, y ∈ ys → ∃ x ∈ l, R x y := by
  intro l ys h
  induction h with
  | nil =>
    intro y hy
    cases hy
  | cons hab hrest ih =>
    intro y hy
    rcases List.mem_cons.mp hy with hy | hy
    · subst hy
      exact ⟨_, List.mem_cons_self _ _, hab⟩
    · obtain ⟨x, hx, hr⟩ := ih hy
      exact ⟨x, List.mem_cons_of_mem _ hx, hr⟩

theorem mirror_forall₂ {β : Type} {provs : List OAuthProviderRequest}
    (hn : (provs.map (·.id)).Nodup) (mkRow : OAuthProviderRequest → OAuthProviderConfigDB → β)
    (rowFn : OAuthProviderConfigDB → Except Err β)
    (hrow : ∀ item, rowFn item =
      findRequestEntry provs item >>= fun entry => pure (mkRow entry item)) :
    ∀ {sub : List OAuthProviderRequest} {created : List OAuthProviderConfigDB} {rows : List β},
      (∀ p ∈ sub, p ∈ provs) →
      List.Forall₂ (fun p cfg => buildOAuthProviderConfig p = .ok cfg) sub created →
      mapExcept rowFn created = .ok rows →
      List.Forall₂
        (fun p r => ∃ cfg, buildOAuthProviderConfig p = .ok cfg ∧ r = mkRow p cfg) sub rows := by
  intro sub created rows hsub hf
  induction hf generalizing rows with
  | nil =>
    intro hm
    injection hm with hm2
    rw [← hm2]
    exact List.Forall₂.nil
  | @cons p cfg sub2 created2 hpc hrest ih =>
    intro hm
    have hfind : findRequestEntry provs cfg = .ok p :=
      findRequestEntry_eq_of_nodup hn (hsub p (List.mem_cons_self _ _))
        (buildOAuthProviderConfig_ok_id hpc)
    rw [mapExcept, hrow, hfind, exc_bind_ok, exc_pure_bind, exc_bind_ok_iff] at hm
    obtain ⟨rows2, hm2, hm3⟩ := hm
    injection hm3 with hm4
    rw [← hm4]
    exact List.Forall₂.cons ⟨cfg, hpc, rfl⟩
      (ih (fun q hq => hsub q (List.mem_cons_of_mem _ hq)) hm2)

theorem mapExcept_ok_map_id {provs : List OAuthProviderRequest}
    {cfgs : List OAuthProviderConfigDB}
    (h : mapExcept buildOAuthProviderConfig provs = .ok cfgs) :
    cfgs.map (·.id) = provs.map (·.id) :=
  forall₂_map_eq (mapExcept_ok_iff.mp h) (·.id) (·.id)
    (fun _ _ hab => buildOAuthProviderConfig_ok_id hab)

theorem createProject_ok_full_elim {newId newConfigId : String} {createdAtMillis : Nat}
    {s : Store} {ownerIds : List String} {data : CreateRequest} {s2 : Store} {view : ProjectView}
    (h : createProject newId newConfigId createdAtMillis s ownerIds data = (s2, .ok view)) :
    ∃ proj cfgs amcs cacs,
      s2.projects = s.projects ++ [proj] ∧
      proj.config.authMethodConfigs = amcs ∧
      proj.config.connectedAccountConfigs = cacs ∧
      proj.config.oauthProviderConfigs = cfgs ∧
      proj.id = newId ∧
      proj.config.id = newConfigId ∧
      proj.config.permissions = defaultPermissions newId newConfigId ∧
      mapExcept buildOAuthProviderConfig ((data.config.bind (·.oauth_providers)).getD []) =
        .ok cfgs ∧
      (cfgs.map (·.id)).Nodup ∧
      buildAuthMethodConfigs data.config cfgs = .ok amcs ∧
      buildConnectedAccountConfigs data.config cfgs = .ok cacs ∧
      (∃ email, buildEmailServiceConfig (data.config.bind (·.email_config)) = .ok email ∧
        proj.config.emailServiceConfig = some email) ∧
      projectPrismaToCrud proj = .ok view := by
  obtain ⟨proj, htx, hread⟩ := createProject_ok_elim h
  obtain ⟨proj0, amcs, cacs, users, anomalies, hbp, hn1, hn2, hamcs, hcacs, how, hproj, hs2⟩ :=
    createProjectTx_ok_elim htx
  obtain ⟨cfgs, email, hcfgs, hemail, hcfgseq, hemaileq, hdom, hid, hcid, _, _, _⟩ :=
    buildProject_ok_elim hbp
  subst hproj
  subst hs2
  rw [hcfgseq] at hn1 hamcs hcacs
  exact ⟨_, cfgs, amcs, cacs, rfl, rfl, rfl, hcfgseq, hid, hcid, rfl, hcfgs, hn1, hamcs, hcacs,
    ⟨email, hemail, hemaileq⟩, hread⟩

theorem buildAuthMethodConfigs_some {config : Option ConfigRequest}
    {provs : List OAuthProviderRequest} {created : List OAuthProviderConfigDB}
    (hp : config.bind (·.oauth_providers) = some provs) :
    buildAuthMethodConfigs config created =
      mapExcept (authMethodRowOf provs) created >>= fun oauthRows =>
        pure (oauthRows ++ otpRowsOf config ++ passwordRowsOf config ++ passkeyRowsOf config) := by
  rw [buildAuthMethodConfigs, hp]

theorem buildAuthMethodConfigs_none {config : Option ConfigRequest}
    {created : List OAuthProviderConfigDB} (hp : config.bind (·.oauth_providers) = none) :
    buildAuthMethodConfigs config created =
      .ok (otpRowsOf config ++ passwordRowsOf config ++ passkeyRowsOf config) := by
  rw [buildAuthMethodConfigs, hp]
  rfl

theorem buildConnectedAccountConfigs_some {config : Option ConfigRequest}
    {provs : List OAuthProviderRequest} {created : List OAuthProviderConfigDB}
    (hp : config.bind (·.oauth_providers) = some provs) :
    buildConnectedAccountConfigs config created =
      mapExcept (connectedAccountRowOf provs) created := by
  rw [buildConnectedAccountConfigs, hp]

theorem buildConnectedAccountConfigs_none {config : Option ConfigRequest}
    {created : List OAuthProviderConfigDB} (hp : config.bind (·.oauth_providers) = none) :
    buildConnectedAccountConfigs config created = .ok [] := by
  rw [buildConnectedAccountConfigs, hp]

theorem extraRows_oauth_filter (config : Option ConfigRequest) :
    ((otpRowsOf config ++ (passwordRowsOf config ++ passkeyRowsOf config)).filter
      (fun r => r.oauthProviderConfig.isSome)) = [] := by
  rw [otpRowsOf, passwordRowsOf, passkeyRowsOf]
  split_ifs <;> rfl

theorem extraRows_otp_filter (config : Option ConfigRequest) :
    ((otpRowsOf config ++ (passwordRowsOf config ++ passkeyRowsOf config)).filter
      (fun r => r.otpConfig.isSome)) = otpRowsOf config := by
  rw [otpRowsOf, passwordRowsOf, passkeyRowsOf]
  split_ifs <;> rfl

theorem extraRows_password_filter (config : Option ConfigRequest) :
    ((otpRowsOf config ++ (passwordRowsOf config ++ passkeyRowsOf config)).filter
      (fun r => r.passwordConfig.isSome)) = passwordRowsOf config := by
  rw [otpRowsOf, passwordRowsOf, passkeyRowsOf]
  split_ifs <;> rfl

theorem extraRows_passkey_filter (config : Option ConfigRequest) :
    ((otpRowsOf config ++ (passwordRowsOf config ++ passkeyRowsOf config)).filter
      (fun r => r.passkeyConfig.isSome)) = passkeyRowsOf config := by
  rw [otpRowsOf, passwordRowsOf, passkeyRowsOf]
  split_ifs <;> rfl

theorem otpRowsOf_map (config : Option ConfigRequest) :
    (otpRowsOf config).map (fun r => (r.enabled, r.otpConfig)) =
      (if config.bind (·.magic_link_enabled) = some true
       then [(true, some { contactChannelType := "EMAIL" })] else []) := by
  rw [otpRowsOf]
  split_ifs <;> rfl

theorem passwordRowsOf_map (config : Option ConfigRequest) :
    (passwordRowsOf config).map (fun r => r.enabled) =
      (if config.bind (·.credential_enabled) = some false then [] else [true]) := by
  rw [passwordRowsOf]
  cases hc : config.bind (·.credential_enabled) with
  | none => simp
  | some b => cases b <;> simp

theorem passkeyRowsOf_map (config : Option ConfigRequest) :
    (passkeyRowsOf config).map (fun r => r.enabled) =
      (if config.bind (·.passkey_enabled) = some true then [true] else []) := by
  rw [passkeyRowsOf]
  split_ifs <;> rfl

theorem findRequestEntry_error_eq {provs : List OAuthProviderRequest}
    {item : OAuthProviderConfigDB} {e : Err} (h : findRequestEntry provs item = .error e) :
    e = .invariant "oauth provider not found" := by
  rw [findRequestEntry] at h
  cases hf : provs.find? (fun p => p.id = item.id) with
  | some p =>
    rw [hf] at h
    cases h
  | none =>
    rw [hf] at h
    injection h with h2
    exact h2.symm

theorem authMethodRowOf_error {provs : List OAuthProviderRequest}
    {item : OAuthProviderConfigDB} {e : Err} (h : authMethodRowOf provs item = .error e) :
    e = .invariant "oauth provider not found" := by
  rw [authMethodRowOf] at h
  cases hf : findRequestEntry provs item with
  | ok p =>
    rw [hf, exc_bind_ok] at h
    cases h
  | error e2 =>
    rw [hf, exc_bind_error] at h
    injection h with h2
    rw [← h2]
    exact findRequestEntry_error_eq hf

theorem countP_eq_of_forall₂ {R : α → β → Prop} {l : List α} {ys : List β}
    (h : List.Forall₂ R l ys) (p : α → Bool) (q : β → Bool)
    (hpq : ∀ a b, R a b → q b = p a) : ys.countP q = l.countP p := by
  induction h with
  | nil => rfl
  | cons hab _ ih => rw [List.countP_cons, List.countP_cons, ih, hpq _ _ hab]

theorem countP_id_eq_one {provs : List OAuthProviderRequest}
    (hn : (provs.map (·.id)).Nodup) {prov : OAuthProviderRequest} (hmem : prov ∈ provs) :
    provs.countP (fun p => p.id = prov.id) = 1 := by
  induction provs with
  | nil => cases hmem
  | cons q rest ih =>
    rw [List.map_cons, List.nodup_cons] at hn
    rw [List.countP_cons]
    rcases List.mem_cons.mp hmem with rfl | hmem2
    · have hzero : rest.countP (fun p => decide (p.id = prov.id)) = 0 :=
        List.countP_eq_zero.mpr (fun p hp hpred =>
          hn.1 ((of_decide_eq_true hpred) ▸ List.mem_map_of_mem _ hp))
      rw [hzero, if_pos (by simp)]
    · have hne : ¬(q.id = prov.id) :=
        fun he => hn.1 (he ▸ List.mem_map_of_mem (fun p => p.id) hmem2)
      rw [ih hn.2 hmem2, if_neg (by simpa using hne)]

/-! ### Claim C5: the auth-method rows of a successful creation -/

/-- Claim C5: after a successful `createProject`, the stored
AuthMethodConfig rows are exactly one OAuth row per requested provider with
the enabled flag copied from the request entry, plus one enabled OTP row
with contact channel EMAIL iff `magic_link_enabled` was requested `true`,
plus one enabled password row unless `credential_enabled` was explicitly
`false`, plus one enabled passkey row iff `passkey_enabled` was requested
`true`; and a created provider absent from the request list makes the
auth-method step fail with the `oauth provider not found`
InvariantViolation. -/
theorem C5_auth_method_rows (newId newConfigId : String) (createdAtMillis : Nat)
    (s : Store) (ownerIds : List String) (data : CreateRequest) (s2 : Store) (view : ProjectView)
    (h : createProject newId newConfigId createdAtMillis s ownerIds data = (s2, .ok view)) :
    (∃ proj, s2.projects = s.projects ++ [proj] ∧
      ((proj.config.authMethodConfigs.filter (fun r => r.oauthProviderConfig.isSome)).map
          (fun r => (r.oauthProviderConfig.map (·.id), r.enabled)) =
        ((data.config.bind (·.oauth_providers)).getD []).map
          (fun p => (some p.id, p.enabled))) ∧
      ((proj.config.authMethodConfigs.filter (fun r => r.otpConfig.isSome)).map
          (fun r => (r.enabled, r.otpConfig)) =
        (if data.config.bind (·.magic_link_enabled) = some true
         then [(true, some { contactChannelType := "EMAIL" })] else [])) ∧
      ((proj.config.authMethodConfigs.filter (fun r => r.passwordConfig.isSome)).map
          (fun r => r.enabled) =
        (if data.config.bind (·.credential_enabled) = some false then [] else [true])) ∧
      ((proj.config.authMethodConfigs.filter (fun r => r.passkeyConfig.isSome)).map
          (fun r => r.enabled) =
        (if data.config.bind (·.passkey_enabled) = some true then [true] else []))) ∧
    (∀ (provs2 : List OAuthProviderRequest) (created : List OAuthProviderConfigDB)
        (item : OAuthProviderConfigDB), item ∈ created → (∀ p ∈ provs2, ¬p.id = item.id) →
      buildAuthMethodConfigs (some { oauth_providers := some provs2 }) created =
        .error (.invariant "oauth provider not found")) := by
  constructor
  · obtain ⟨proj, cfgs, amcs, cacs, hs2, hamcseq, hcacseq, hcfgseq, _, _, _, hcfgs, hnodup,
      hamcs, hcacs, _, _⟩ := createProject_ok_full_elim h
    refine ⟨proj, hs2, ?_⟩
    rw [hamcseq]
    cases hop : data.config.bind (·.oauth_providers) with
    | none =>
      rw [buildAuthMethodConfigs_none hop] at hamcs
      injection hamcs with h2
      rw [← h2]
      simp only [List.append_assoc]
      refine ⟨?_, ?_, ?_, ?_⟩
      · rw [extraRows_oauth_filter]
        rfl
      · rw [extraRows_otp_filter, otpRowsOf_map]
      · rw [extraRows_password_filter, passwordRowsOf_map]
      · rw [extraRows_passkey_filter, passkeyRowsOf_map]
    | some provs =>
      rw [hop] at hcfgs
      rw [Option.getD_some] at hcfgs
      have hf : List.Forall₂ (fun p cfg => buildOAuthProviderConfig p = .ok cfg) provs cfgs :=
        mapExcept_ok_iff.mp hcfgs
      have hnodup2 : (provs.map (·.id)).Nodup := by
        rw [← mapExcept_ok_map_id hcfgs]
        exact hnodup
      rw [buildAuthMethodConfigs_some hop, exc_bind_ok_iff] at hamcs
      obtain ⟨oauthRows, hoauthmap, hpure⟩ := hamcs
      injection hpure with h2
      rw [← h2]
      have hmirror := mirror_forall₂ hnodup2 oauthAuthMethodRow (authMethodRowOf provs)
        (fun _ => rfl) (fun p hp => hp) hf hoauthmap
      have hshape : ∀ r ∈ oauthRows, ∃ p cfg, r = oauthAuthMethodRow p cfg := by
        intro r hr
        obtain ⟨p, _, cfg, _, heq⟩ := forall₂_exists_left hmirror hr
        exact ⟨p, cfg, heq⟩
      have hoauthall : oauthRows.filter (fun r => r.oauthProviderConfig.isSome) = oauthRows :=
        List.filter_eq_self.mpr (fun r hr => by
          obtain ⟨p, cfg, rfl⟩ := hshape r hr
          rfl)
      have hrowsmap : oauthRows.map (fun r => (r.oauthProviderConfig.map (·.id), r.enabled)) =
          provs.map (fun p => (some p.id, p.enabled)) := by
        refine forall₂_map_eq hmirror _ _ ?_
        rintro p r ⟨cfg, hb, rfl⟩
        have hid := buildOAuthProviderConfig_ok_id hb
        simp [oauthAuthMethodRow, hid]
      have hotpnil : List.filter (fun r => r.otpConfig.isSome) oauthRows = [] :=
        List.filter_eq_nil_iff.mpr (fun r hr => by
          obtain ⟨p, cfg, rfl⟩ := hshape r hr
          simp [oauthAuthMethodRow])
      have hpwnil : List.filter (fun r => r.passwordConfig.isSome) oauthRows = [] :=
        List.filter_eq_nil_iff.mpr (fun r hr => by
          obtain ⟨p, cfg, rfl⟩ := hshape r hr
          simp [oauthAuthMethodRow])
      have hpknil : List.filter (fun r => r.passkeyConfig.isSome) oauthRows = [] :=
        List.filter_eq_nil_iff.mpr (fun r hr => by
          obtain ⟨p, cfg, rfl⟩ := hshape r hr
          simp [oauthAuthMethodRow])
      simp only [List.append_assoc]
      refine ⟨?_, ?_, ?_, ?_⟩
      · rw [List.filter_append, hoauthall, extraRows_oauth_filter, List.append_nil, hrowsmap,
          Option.getD_some]
      · rw [List.filter_append, hotpnil, List.nil_append, extraRows_otp_filter, otpRowsOf_map]
      · rw [List.filter_append, hpwnil, List.nil_append, extraRows_password_filter,
          passwordRowsOf_map]
      · rw [List.filter_append, hpknil, List.nil_append, extraRows_passkey_filter,
          passkeyRowsOf_map]
  · intro provs2 created item hitem habs
    have hrowerr : authMethodRowOf provs2 item = .error (.invariant "oauth provider not found") := by
      rw [authMethodRowOf, findRequestEntry_error_of_absent habs, exc_bind_error]
    obtain ⟨e2, x2, _, hex2, hmap⟩ := mapExcept_error_of_mem hitem hrowerr
    rw [@buildAuthMethodConfigs_some (some { oauth_providers := some provs2 }) provs2 created rfl,
      hmap, exc_bind_error, authMethodRowOf_error hex2]

/-- The OAuth provider entries of the sample creation request (the spec §8
example: shared google enabled, standard github disabled). -/
def sampleProviders : List OAuthProviderRequest :=
  [{ id := "google", type := .shared, enabled := true },
   { id := "github", type := .standard, enabled := false,
     client_id := some "x", client_secret := some "y" }]

/-- A sample creation request exercising OAuth providers, magic link on and
credential auth explicitly off. -/
def sampleRequest : CreateRequest where
  display_name := "Acme"
  config := some {
    oauth_providers := some sampleProviders,
    magic_link_enabled := some true,
    credential_enabled := some false }

/-- A sample store with one internal owner user. -/
def sampleStore : Store where
  projects := []
  users := [{ projectId := "internal", projectUserId := "u1", serverMetadata := .null }]
  anomalies := []

/-- Claim C5 witness: the row characterization evaluated on the sample
request. -/
theorem C5_auth_method_rows_witness :
    ∃ s2 view, createProject "p1" "c1" 0 sampleStore ["u1"] sampleRequest = (s2, .ok view) ∧
      ((∃ proj, s2.projects = sampleStore.projects ++ [proj] ∧
        ((proj.config.authMethodConfigs.filter (fun r => r.oauthProviderConfig.isSome)).map
            (fun r => (r.oauthProviderConfig.map (·.id), r.enabled)) =
          ((sampleRequest.config.bind (·.oauth_providers)).getD []).map
            (fun p => (some p.id, p.enabled))) ∧
        ((proj.config.authMethodConfigs.filter (fun r => r.otpConfig.isSome)).map
            (fun r => (r.enabled, r.otpConfig)) =
          (if sampleRequest.config.bind (·.magic_link_enabled) = some true
           then [(true, some { contactChannelType := "EMAIL" })] else [])) ∧
        ((proj.config.authMethodConfigs.filter (fun r => r.passwordConfig.isSome)).map
            (fun r => r.enabled) =
          (if sampleRequest.config.bind (·.credential_enabled) = some false
           then [] else [true])) ∧
        ((proj.config.authMethodConfigs.filter (fun r => r.passkeyConfig.isSome)).map
            (fun r => r.enabled) =
          (if sampleRequest.config.bind (·.passkey_enabled) = some true then [true] else []))) ∧
      (∀ (provs2 : List OAuthProviderRequest) (created : List OAuthProviderConfigDB)
          (item : OAuthProviderConfigDB), item ∈ created → (∀ p ∈ provs2, ¬p.id = item.id) →
        buildAuthMethodConfigs (some { oauth_providers := some provs2 }) created =
          .error (.invariant "oauth provider not found"))) :=
  ⟨_, _, rfl, C5_auth_method_rows "p1" "c1" 0 sampleStore ["u1"] sampleRequest _ _ rfl⟩

/-! ### Claim C2: connected-account rows mirror the OAuth auth methods -/

/-- Claim C2: after a successful `createProject` with OAuth provider
entries, for every requested provider there is exactly one AuthMethodConfig
row and exactly one ConnectedAccountConfig row referencing that provider,
and both rows carry the enabled flag of the request entry (hence equal
flags). -/
theorem C2_connected_mirror (newId newConfigId : String) (createdAtMillis : Nat)
    (s : Store) (ownerIds : List String) (data : CreateRequest) (s2 : Store) (view : ProjectView)
    (h : createProject newId newConfigId createdAtMillis s ownerIds data = (s2, .ok view))
    (provs : List OAuthProviderRequest)
    (hprovs : data.config.bind (·.oauth_providers) = some provs)
    (prov : OAuthProviderRequest) (hmem : prov ∈ provs) :
    ∃ proj, s2.projects = s.projects ++ [proj] ∧
      proj.config.authMethodConfigs.countP
        (fun r => r.oauthProviderConfig.map (·.id) = some prov.id) = 1 ∧
      proj.config.connectedAccountConfigs.countP
        (fun r => r.oauthProviderConfig.map (·.id) = some prov.id) = 1 ∧
      (∀ r ∈ proj.config.authMethodConfigs,
        r.oauthProviderConfig.map (·.id) = some prov.id → r.enabled = prov.enabled) ∧
      (∀ r ∈ proj.config.connectedAccountConfigs,
        r.oauthProviderConfig.map (·.id) = some prov.id → r.enabled = prov.enabled) := by
  obtain ⟨proj, cfgs, amcs, cacs, hs2, hamcseq, hcacseq, hcfgseq, _, _, _, hcfgs, hnodup,
    hamcs, hcacs, _, _⟩ := createProject_ok_full_elim h
  rw [hprovs, Option.getD_some] at hcfgs
  have hf : List.Forall₂ (fun p cfg => buildOAuthProviderConfig p = .ok cfg) provs cfgs :=
    mapExcept_ok_iff.mp hcfgs
  have hnodup2 : (provs.map (·.id)).Nodup := by
    rw [← mapExcept_ok_map_id hcfgs]
    exact hnodup
  rw [buildAuthMethodConfigs_some hprovs, exc_bind_ok_iff] at hamcs
  obtain ⟨oauthRows, hoauthmap, hpure⟩ := hamcs
  injection hpure with hamcs2
  rw [buildConnectedAccountConfigs_some hprovs] at hcacs
  have hmirrorA := mirror_forall₂ hnodup2 oauthAuthMethodRow (authMethodRowOf provs)
    (fun _ => rfl) (fun p hp => hp) hf hoauthmap
  have hmirrorC := mirror_forall₂ hnodup2 oauthConnectedAccountRow (connectedAccountRowOf provs)
    (fun _ => rfl) (fun p hp => hp) hf hcacs
  have hcount : provs.countP (fun p => p.id = prov.id) = 1 := countP_id_eq_one hnodup2 hmem
  have hflag : ∀ p ∈ provs, p.id = prov.id → p.enabled = prov.enabled := fun p hp hid => by
    rw [List.inj_on_of_nodup_map hnodup2 hp hmem hid]
  have hcountA : oauthRows.countP (fun r => r.oauthProviderConfig.map (·.id) = some prov.id) =
      provs.countP (fun p => p.id = prov.id) := by
    refine countP_eq_of_forall₂ hmirrorA _ _ ?_
    rintro p r ⟨cfg, hb, rfl⟩
    have hid := buildOAuthProviderConfig_ok_id hb
    simp [oauthAuthMethodRow, hid]
  have hcountC : cacs.countP (fun r => r.oauthProviderConfig.map (·.id) = some prov.id) =
      provs.countP (fun p => p.id = prov.id) := by
    refine countP_eq_of_forall₂ hmirrorC _ _ ?_
    rintro p r ⟨cfg, hb, rfl⟩
    have hid := buildOAuthProviderConfig_ok_id hb
    simp [oauthConnectedAccountRow, hid]
  have hextras : (otpRowsOf data.config ++ (passwordRowsOf data.config ++
      passkeyRowsOf data.config)).countP
      (fun r => r.oauthProviderConfig.map (·.id) = some prov.id) = 0 := by
    refine List.countP_eq_zero.mpr ?_
    intro r hr
    have hnone := List.filter_eq_nil_iff.mp (extraRows_oauth_filter data.config) r hr
    intro hpred
    apply hnone
    cases ho : r.oauthProviderConfig with
    | none =>
      rw [ho] at hpred
      cases (of_decide_eq_true hpred)
    | some cfg => rfl
  have henabledA : ∀ r ∈ amcs,
      r.oauthProviderConfig.map (·.id) = some prov.id → r.enabled = prov.enabled := by
    intro r hr hpred
    rw [← hamcs2] at hr
    simp only [List.append_assoc] at hr
    rcases List.mem_append.mp hr with hr2 | hr2
    · obtain ⟨p, hp, cfg, hb, rfl⟩ := forall₂_exists_left hmirrorA hr2
      have hid := buildOAuthProviderConfig_ok_id hb
      have h4 : cfg.id = prov.id := by simpa [oauthAuthMethodRow] using hpred
      have hpid : p.id = prov.id := by
        rw [← hid]
        exact h4
      show p.enabled = prov.enabled
      exact hflag p hp hpid
    · have hnone := List.filter_eq_nil_iff.mp (extraRows_oauth_filter data.config) r hr2
      exfalso
      apply hnone
      cases ho : r.oauthProviderConfig with
      | none =>
        rw [ho] at hpred
        cases hpred
      | some cfg => rfl
  have henabledC : ∀ r ∈ cacs,
      r.oauthProviderConfig.map (·.id) = some prov.id → r.enabled = prov.enabled := by
    intro r hr hpred
    obtain ⟨p, hp, cfg, hb, rfl⟩ := forall₂_exists_left hmirrorC hr
    have hid := buildOAuthProviderConfig_ok_id hb
    have h4 : cfg.id = prov.id := by simpa [oauthConnectedAccountRow] using hpred
    have hpid : p.id = prov.id := by
      rw [← hid]
      exact h4
    show p.enabled = prov.enabled
    exact hflag p hp hpid
  refine ⟨proj, hs2, ?_, ?_, ?_, ?_⟩
  · rw [hamcseq, ← hamcs2]
    simp only [List.append_assoc]
    rw [List.countP_append, hcountA, hextras, hcount]
  · rw [hcacseq, hcountC, hcount]
  · rw [hamcseq]
    exact henabledA
  · rw [hcacseq]
    exact henabledC

/-- Claim C2 witness: the mirroring theorem applied to the sample request at
the shared google entry. -/
theorem C2_connected_mirror_witness :
    ∃ s2 view, createProject "p1" "c1" 0 sampleStore ["u1"] sampleRequest = (s2, .ok view) ∧
      (∃ proj, s2.projects = sampleStore.projects ++ [proj] ∧
        proj.config.authMethodConfigs.countP
          (fun r => r.oauthProviderConfig.map (·.id) =
            some ({ id := "google", type := .shared, enabled := true } :
              OAuthProviderRequest).id) = 1 ∧
        proj.config.connectedAccountConfigs.countP
          (fun r => r.oauthProviderConfig.map (·.id) =
            some ({ id := "google", type := .shared, enabled := true } :
              OAuthProviderRequest).id) = 1 ∧
        (∀ r ∈ proj.config.authMethodConfigs,
          r.oauthProviderConfig.map (·.id) =
            some ({ id := "google", type := .shared, enabled := true } :
              OAuthProviderRequest).id →
          r.enabled = ({ id := "google", type := .shared, enabled := true } :
            OAuthProviderRequest).enabled) ∧
        (∀ r ∈ proj.config.connectedAccountConfigs,
          r.oauthProviderConfig.map (·.id) =
            some ({ id := "google", type := .shared, enabled := true } :
              OAuthProviderRequest).id →
          r.enabled = ({ id := "google", type := .shared, enabled := true } :
            OAuthProviderRequest).enabled)) :=
  ⟨_, _, rfl, C2_connected_mirror "p1" "c1" 0 sampleStore ["u1"] sampleRequest _ _ rfl
    sampleProviders rfl _ (List.mem_cons_self _ _)⟩

/-! ### Claim C6: the two seeded permission records are fixed -/

/-- Claim C6: every successful `createProject`, regardless of the request,
stores exactly two Permission records: queryable id `member` flagged as the
team-member default with parent-edges to exactly READ_MEMBERS and
INVITE_MEMBERS, and queryable id `admin` flagged as the team-creator
default with parent-edges to exactly UPDATE_TEAM, DELETE_TEAM,
READ_MEMBERS, REMOVE_MEMBERS, INVITE_MEMBERS; the caller cannot alter
them. -/
theorem C6_default_permissions (newId newConfigId : String) (createdAtMillis : Nat)
    (s : Store) (ownerIds : List String) (data : CreateRequest) (s2 : Store) (view : ProjectView)
    (h : createProject newId newConfigId createdAtMillis s ownerIds data = (s2, .ok view)) :
    ∃ proj, s2.projects = s.projects ++ [proj] ∧
      proj.config.permissions.map (fun perm => (perm.queryableId,
        perm.isDefaultTeamMemberPermission, perm.isDefaultTeamCreatorPermission,
        perm.parentEdges.map (·.parentTeamSystemPermission))) =
        [("member", true, false, [.READ_MEMBERS, .INVITE_MEMBERS]),
         ("admin", false, true,
           [.UPDATE_TEAM, .DELETE_TEAM, .READ_MEMBERS, .REMOVE_MEMBERS, .INVITE_MEMBERS])] ∧
      proj.config.permissions = defaultPermissions newId newConfigId := by
  obtain ⟨proj, cfgs, amcs, cacs, hs2, _, _, _, _, _, hperm, _, _, _, _, _, _⟩ :=
    createProject_ok_full_elim h
  refine ⟨proj, hs2, ?_, hperm⟩
  rw [hperm]
  rfl

/-- Claim C6 witness: the fixed permissions of a concrete creation. -/
theorem C6_default_permissions_witness :
    ∃ s2 view, createProject "p1" "c1" 0 sampleStore ["u1"] sampleRequest = (s2, .ok view) ∧
      (∃ proj, s2.projects = sampleStore.projects ++ [proj] ∧
        proj.config.permissions.map (fun perm => (perm.queryableId,
          perm.isDefaultTeamMemberPermission, perm.isDefaultTeamCreatorPermission,
          perm.parentEdges.map (·.parentTeamSystemPermission))) =
          [("member", true, false, [.READ_MEMBERS, .INVITE_MEMBERS]),
           ("admin", false, true,
             [.UPDATE_TEAM, .DELETE_TEAM, .READ_MEMBERS, .REMOVE_MEMBERS, .INVITE_MEMBERS])] ∧
        proj.config.permissions = defaultPermissions "p1" "c1") :=
  ⟨_, _, rfl, C6_default_permissions "p1" "c1" 0 sampleStore ["u1"] sampleRequest _ _ rfl⟩

/-! ### Claim C7: absent email config defaults to the shared variant -/

/-- Claim C7: a creation request that supplies no `email_config` at all
stores the proxied (shared) email variant, and the flattened view returned
for the new project has `email_config = {type: "shared"}`. -/
theorem C7_default_email (newId newConfigId : String) (createdAtMillis : Nat)
    (s : Store) (ownerIds : List String) (data : CreateRequest) (s2 : Store) (view : ProjectView)
    (hemail : data.config.bind (·.email_config) = none)
    (h : createProject newId newConfigId createdAtMillis s ownerIds data = (s2, .ok view)) :
    view.config.email_config = .shared ∧
    ∃ proj, s2.projects = s.projects ++ [proj] ∧
      proj.config.emailServiceConfig =
        some { proxiedEmailServiceConfig := some (), standardEmailServiceConfig := none } := by
  obtain ⟨proj, cfgs, amcs, cacs, hs2, _, _, _, _, _, _, _, _, _, _, hem, hread⟩ :=
    createProject_ok_full_elim h
  obtain ⟨email, hbe, hese⟩ := hem
  rw [hemail, buildEmailServiceConfig_none_eq] at hbe
  injection hbe with hbe2
  rw [← hbe2] at hese
  obtain ⟨mapped, emailConfig, _, hre, _, _, hve, _, _, _⟩ := projectPrismaToCrud_ok_elim hread
  rw [hese] at hre
  have : emailConfig = .shared := by
    rw [resolveEmailConfig_some] at hre
    injection hre with hre2
    exact hre2.symm
  rw [this] at hve
  exact ⟨hve, proj, hs2, hese⟩

/-- Claim C7 witness: the sample request supplies no email config and reads
back the shared variant. -/
theorem C7_default_email_witness :
    ∃ s2 view, createProject "p1" "c1" 0 sampleStore ["u1"] sampleRequest = (s2, .ok view) ∧
      (view.config.email_config = .shared ∧
      ∃ proj, s2.projects = sampleStore.projects ++ [proj] ∧
        proj.config.emailServiceConfig =
          some { proxiedEmailServiceConfig := some (), standardEmailServiceConfig := none }) :=
  ⟨_, _, rfl, C7_default_email "p1" "c1" 0 sampleStore ["u1"] sampleRequest _ _ rfl rfl⟩

/-! ### Object-literal lemmas for the owner metadata update -/

theorem jsLookup_jsSetField_self (fields : List (String × JsonVal)) (k : String) (v : JsonVal) :
    jsLookup (jsSetField fields k v) k = some v := by
  induction fields with
  | nil => simp [jsSetField, jsLookup]
  | cons p ps ih =>
    by_cases hp : p.1 = k
    · simp [jsSetField, jsLookup, List.any_cons, List.find?_cons, hp]
    · by_cases hany : ps.any (fun q => q.1 = k) = true
      · rw [jsSetField] at ih ⊢
        rw [if_pos hany] at ih
        rw [if_pos (by simp [List.any_cons, hp, hany]), List.map_cons, if_neg hp]
        rw [jsLookup] at ih ⊢
        rw [List.find?_cons]
        simp only [hp, decide_eq_true_eq, if_false]
        exact ih
      · rw [jsSetField] at ih ⊢
        rw [if_neg (by simp_all [List.any_cons, hp])] at ih
        rw [if_neg (by simp_all [List.any_cons, hp]), List.cons_append]
        rw [jsLookup] at ih ⊢
        rw [List.find?_cons]
        simp only [hp, decide_eq_true_eq, if_false]
        exact ih

theorem jsLookup_mapSet (ps : List (String × JsonVal)) (k : String) (v : JsonVal)
    (k2 : String) (hne : ¬k2 = k) :
    jsLookup (ps.map (fun p => if p.1 = k then (k, v) else p)) k2 = jsLookup ps k2 := by
  induction ps with
  | nil => rfl
  | cons p ps ih =>
    rw [List.map_cons, jsLookup, jsLookup, List.find?_cons, List.find?_cons]
    by_cases hp : p.1 = k
    · rw [if_pos hp]
      have h1 : (decide (((k, v) : String × JsonVal).1 = k2)) = false :=
        decide_eq_false (fun h2 => hne h2.symm)
      have h2 : (decide (p.1 = k2)) = false :=
        decide_eq_false (fun h3 => hne (by rw [← h3, hp]))
      rw [h1, h2]
      exact ih
    · rw [if_neg hp]
      cases hpk2 : decide (p.1 = k2) with
      | true => rfl
      | false => exact ih

theorem jsLookup_append_single (fields : List (String × JsonVal)) (k : String) (v : JsonVal)
    (k2 : String) (hne : ¬k2 = k) :
    jsLookup (fields ++ [(k, v)]) k2 = jsLookup fields k2 := by
  induction fields with
  | nil =>
    rw [List.nil_append, jsLookup, jsLookup, List.find?_cons]
    have h1 : (decide (((k, v) : String × JsonVal).1 = k2)) = false :=
      decide_eq_false (fun h2 => hne h2.symm)
    rw [h1]
  | cons p ps ih =>
    rw [List.cons_append, jsLookup, jsLookup, List.find?_cons, List.find?_cons]
    cases hpk2 : decide (p.1 = k2) with
    | true => rfl
    | false => exact ih

theorem jsLookup_jsSetField_ne (fields : List (String × JsonVal)) (k : String) (v : JsonVal)
    (k2 : String) (hne : ¬k2 = k) : jsLookup (jsSetField fields k v) k2 = jsLookup fields k2 := by
  rw [jsSetField]
  by_cases hany : fields.any (fun q => q.1 = k) = true
  · rw [if_pos hany]
    exact jsLookup_mapSet fields k v k2 hne
  · rw [if_neg hany]
    exact jsLookup_append_single fields k v k2 hne

/-! ### Claim C9: the metadata update is a merge-append -/

/-- Claim C9: for an owner user whose `serverMetadata` is an object (with a
missing, null or array-valued `managedProjectIds`), the metadata update of
`createProject` produces an object whose `managedProjectIds` is the old
list with the new project id appended, and every other top-level key keeps
its old value. -/
theorem C9_metadata_merge_append (old : JsonVal) (projectId : String)
    (fields : List (String × JsonVal)) (hobj : old = .obj fields)
    (hm : jsLookup fields "managedProjectIds" = none ∨
      jsLookup fields "managedProjectIds" = some .null ∨
      ∃ xs, jsLookup fields "managedProjectIds" = some (.arr xs)) :
    ∃ fields2, updateOwnerServerMetadata old projectId = .ok (.obj fields2) ∧
      jsLookup fields2 "managedProjectIds" =
        some (.arr ((match jsLookup fields "managedProjectIds" with
          | some (.arr xs) => xs
          | _ => []) ++ [.str projectId])) ∧
      ∀ k, ¬k = "managedProjectIds" → jsLookup fields2 k = jsLookup fields k := by
  subst hobj
  have hbase : updateOwnerServerMetadata (.obj fields) projectId =
      spreadArrayOrEmpty (jsLookup fields "managedProjectIds") >>= fun existing =>
        pure (.obj (jsSetField fields "managedProjectIds"
          (.arr (existing ++ [.str projectId])))) := rfl
  rcases hm with hm | hm | ⟨xs, hm⟩
  · refine ⟨jsSetField fields "managedProjectIds" (.arr ([] ++ [.str projectId])), ?_, ?_, ?_⟩
    · rw [hbase, hm]
      rfl
    · rw [jsLookup_jsSetField_self, hm]
    · intro k hk
      rw [jsLookup_jsSetField_ne _ _ _ _ hk]
  · refine ⟨jsSetField fields "managedProjectIds" (.arr ([] ++ [.str projectId])), ?_, ?_, ?_⟩
    · rw [hbase, hm]
      rfl
    · rw [jsLookup_jsSetField_self, hm]
    · intro k hk
      rw [jsLookup_jsSetField_ne _ _ _ _ hk]
  · refine ⟨jsSetField fields "managedProjectIds" (.arr (xs ++ [.str projectId])), ?_, ?_, ?_⟩
    · rw [hbase, hm]
      rfl
    · rw [jsLookup_jsSetField_self, hm]
    · intro k hk
      rw [jsLookup_jsSetField_ne _ _ _ _ hk]

/-- Claim C9 witness: the merge-append evaluated on concrete metadata with
an unrelated key and an existing managed project. -/
theorem C9_metadata_merge_append_witness :
    ∃ fields2, updateOwnerServerMetadata
        (.obj [("theme", .str "dark"), ("managedProjectIds", .arr [.str "old"])]) "p1" =
        .ok (.obj fields2) ∧
      jsLookup fields2 "managedProjectIds" =
        some (.arr ((match jsLookup [("theme", .str "dark"),
          ("managedProjectIds", JsonVal.arr [.str "old"])] "managedProjectIds" with
          | some (.arr xs) => xs
          | _ => []) ++ [.str "p1"])) ∧
      ∀ k, ¬k = "managedProjectIds" →
        jsLookup fields2 k =
          jsLookup [("theme", .str "dark"), ("managedProjectIds", .arr [.str "old"])] k :=
  C9_metadata_merge_append _ "p1"
    [("theme", .str "dark"), ("managedProjectIds", .arr [.str "old"])] rfl
    (Or.inr (Or.inr ⟨[.str "old"], rfl⟩))

/-! ### Success of the owner loop and of the whole creation -/

/-- Server metadata on which the metadata update cannot raise a JavaScript
`TypeError`: its `managedProjectIds` (after the `?? {}` base fallback) is
not a non-iterable value. -/
def metadataUpdatable (v : JsonVal) : Bool :=
  match jsGetProp (match v with | .null => .obj [] | w => w) "managedProjectIds" with
  | some (.num _) => false
  | some (.bool _) => false
  | some (.obj _) => false
  | _ => true

theorem metadataUpdatable_setArr (fields : List (String × JsonVal)) (xs : List JsonVal) :
    metadataUpdatable (.obj (jsSetField fields "managedProjectIds" (.arr xs))) = true := by
  show (match jsLookup (jsSetField fields "managedProjectIds" (.arr xs))
      "managedProjectIds" with
    | some (.num _) => false
    | some (.bool _) => false
    | some (.obj _) => false
    | _ => true) = true
  rw [jsLookup_jsSetField_self]

theorem updateOwnerServerMetadata_ok {v : JsonVal} {projectId : String}
    (h : metadataUpdatable v = true) :
    ∃ w, updateOwnerServerMetadata v projectId = .ok w ∧ metadataUpdatable w = true := by
  cases v with
  | null => exact ⟨_, rfl, metadataUpdatable_setArr _ _⟩
  | bool b => exact ⟨_, rfl, metadataUpdatable_setArr _ _⟩
  | num n => exact ⟨_, rfl, metadataUpdatable_setArr _ _⟩
  | str s2 => exact ⟨_, rfl, metadataUpdatable_setArr _ _⟩
  | arr xs => exact ⟨_, rfl, metadataUpdatable_setArr _ _⟩
  | obj fields =>
    have h2 : (match jsLookup fields "managedProjectIds" with
      | some (.num _) => false
      | some (.bool _) => false
      | some (.obj _) => false
      | _ => true) = true := h
    have hupd : updateOwnerServerMetadata (.obj fields) projectId =
        spreadArrayOrEmpty (jsLookup fields "managedProjectIds") >>= fun existing =>
          pure (.obj (jsSetField fields "managedProjectIds"
            (.arr (existing ++ [.str projectId])))) := rfl
    rw [hupd]
    cases hg : jsLookup fields "managedProjectIds" with
    | none => exact ⟨_, rfl, metadataUpdatable_setArr _ _⟩
    | some w =>
      rw [hg] at h2
      cases w with
      | null => exact ⟨_, rfl, metadataUpdatable_setArr _ _⟩
      | bool b => cases h2
      | num n => cases h2
      | str s2 => exact ⟨_, rfl, metadataUpdatable_setArr _ _⟩
      | arr xs => exact ⟨_, rfl, metadataUpdatable_setArr _ _⟩
      | obj o => cases h2

theorem updateUser_mem {users : List ProjectUserDB} {userId : String} {m : JsonVal}
    {u : ProjectUserDB} (hu : u ∈ updateUser users userId m) :
    ∃ u0 ∈ users, (u = u0 ∨ u = { u0 with serverMetadata := m }) := by
  rw [updateUser] at hu
  obtain ⟨u0, hu0, heq⟩ := List.mem_map.mp hu
  by_cases hc : u0.projectId = "internal" ∧ u0.projectUserId = userId
  · rw [if_pos hc] at heq
    exact ⟨u0, hu0, Or.inr heq.symm⟩
  · rw [if_neg hc] at heq
    exact ⟨u0, hu0, Or.inl heq.symm⟩

theorem updateUser_metadataUpdatable {users : List ProjectUserDB} {userId : String}
    {m : JsonVal} (hm : metadataUpdatable m = true)
    (h : ∀ u ∈ users, metadataUpdatable u.serverMetadata = true) :
    ∀ u ∈ updateUser users userId m, metadataUpdatable u.serverMetadata = true := by
  intro u hu
  obtain ⟨u0, hu0, heq | heq⟩ := updateUser_mem hu
  · rw [heq]
    exact h u0 hu0
  · rw [heq]
    exact hm

theorem updateUser_find_none {users : List ProjectUserDB} {userId : String} {m : JsonVal}
    {uid : String}
    (h : users.find? (fun u => u.projectId = "internal" ∧ u.projectUserId = uid) = none) :
    (updateUser users userId m).find?
      (fun u => u.projectId = "internal" ∧ u.projectUserId = uid) = none := by
  rw [List.find?_eq_none] at h ⊢
  intro u hu
  obtain ⟨u0, hu0, heq | heq⟩ := updateUser_mem hu
  · rw [heq]
    exact h u0 hu0
  · rw [heq]
    exact h u0 hu0

theorem processOwners_ok (projectId : String) (allOwnerIds : List String) :
    ∀ (todo : List String) (users : List ProjectUserDB) (anomalies : List Anomaly),
      (∀ u ∈ users, metadataUpdatable u.serverMetadata = true) →
      ∃ users2 anomalies2,
        processOwners projectId allOwnerIds users anomalies todo = .ok (users2, anomalies2) := by
  intro todo
  induction todo with
  | nil => exact fun users anomalies _ => ⟨users, anomalies, rfl⟩
  | cons userId rest ih =>
    intro users anomalies hmeta
    rw [processOwners]
    cases hf : users.find? (fun u => u.projectId = "internal" ∧ u.projectUserId = userId) with
    | none => exact ih users _ hmeta
    | some u =>
      have hu : metadataUpdatable u.serverMetadata = true :=
        hmeta u (List.mem_of_find?_eq_some hf)
      obtain ⟨w, hw, hwu⟩ := @updateOwnerServerMetadata_ok u.serverMetadata projectId hu
      show ∃ users2 anomalies2,
        (updateOwnerServerMetadata u.serverMetadata projectId >>= fun newMeta =>
          processOwners projectId allOwnerIds (updateUser users u.projectUserId newMeta)
            anomalies rest) = .ok (users2, anomalies2)
      rw [hw, exc_bind_ok]
      exact ih _ anomalies (updateUser_metadataUpdatable hwu hmeta)

theorem processOwners_anoms_mono (projectId : String) (allOwnerIds : List String) :
    ∀ (todo : List String) (users : List ProjectUserDB) (anomalies : List Anomaly)
      (users2 : List ProjectUserDB) (anomalies2 : List Anomaly),
      processOwners projectId allOwnerIds users anomalies todo = .ok (users2, anomalies2) →
      ∀ a ∈ anomalies, a ∈ anomalies2 := by
  intro todo
  induction todo with
  | nil =>
    intro users anomalies users2 anomalies2 h a ha
    injection h with h2
    injection h2 with h3 h4
    rw [← h4]
    exact ha
  | cons userId rest ih =>
    intro users anomalies users2 anomalies2 h a ha
    rw [processOwners] at h
    cases hf : users.find? (fun u => u.projectId = "internal" ∧ u.projectUserId = userId) with
    | none =>
      rw [hf] at h
      exact ih users _ users2 anomalies2 h a (List.mem_append_left _ ha)
    | some u =>
      rw [hf] at h
      have h2 : (updateOwnerServerMetadata u.serverMetadata projectId >>= fun newMeta =>
          processOwners projectId allOwnerIds (updateUser users u.projectUserId newMeta)
            anomalies rest) = .ok (users2, anomalies2) := h
      rw [exc_bind_ok_iff] at h2
      obtain ⟨w, _, h2⟩ := h2
      exact ih _ anomalies users2 anomalies2 h2 a ha

theorem processOwners_records (projectId : String) (allOwnerIds : List String) (uid : String) :
    ∀ (todo : List String) (users : List ProjectUserDB) (anomalies : List Anomaly)
      (users2 : List ProjectUserDB) (anomalies2 : List Anomaly),
      uid ∈ todo →
      users.find? (fun u => u.projectId = "internal" ∧ u.projectUserId = uid) = none →
      processOwners projectId allOwnerIds users anomalies todo = .ok (users2, anomalies2) →
      ownerNotFoundAnomaly uid allOwnerIds ∈ anomalies2 := by
  intro todo
  induction todo with
  | nil =>
    intro users anomalies users2 anomalies2 hmem
    cases hmem
  | cons userId rest ih =>
    intro users anomalies users2 anomalies2 hmem hmiss h
    rw [processOwners] at h
    rcases List.mem_cons.mp hmem with rfl | hmem2
    · rw [hmiss] at h
      exact processOwners_anoms_mono projectId allOwnerIds rest users _ users2 anomalies2 h _
        (List.mem_append_right _ (List.mem_singleton.mpr rfl))
    · cases hf : users.find? (fun u => u.projectId = "internal" ∧ u.projectUserId = userId) with
      | none =>
        rw [hf] at h
        exact ih users _ users2 anomalies2 hmem2 hmiss h
      | some u =>
        rw [hf] at h
        have h2 : (updateOwnerServerMetadata u.serverMetadata projectId >>= fun newMeta =>
            processOwners projectId allOwnerIds (updateUser users u.projectUserId newMeta)
              anomalies rest) = .ok (users2, anomalies2) := h
        rw [exc_bind_ok_iff] at h2
        obtain ⟨w, _, h2⟩ := h2
        exact ih _ anomalies users2 anomalies2 hmem2 (updateUser_find_none hmiss) h2

theorem resolveOAuthProvider_ok (pid : String) (amc : AuthMethodConfigDB)
    (h : amc.oauthProviderConfig = none ∨ ∃ cfg, amc.oauthProviderConfig = some cfg ∧
      (cfg.proxiedOAuthConfig.isSome = true ∨
        (cfg.proxiedOAuthConfig = none ∧ cfg.standardOAuthConfig.isSome = true))) :
    ∃ y, resolveOAuthProvider pid amc = .ok y := by
  rcases h with h | ⟨cfg, hcfg, hv⟩
  · exact ⟨none, by rw [resolveOAuthProvider, h]⟩
  · rw [resolveOAuthProvider_some pid amc cfg hcfg]
    rcases hv with hv | ⟨hnone, hv⟩
    · cases hp : cfg.proxiedOAuthConfig with
      | none =>
        rw [hp] at hv
        cases hv
      | some px => exact ⟨_, rfl⟩
    · rw [hnone]
      cases hs : cfg.standardOAuthConfig with
      | none =>
        rw [hs] at hv
        cases hv
      | some std => exact ⟨_, rfl⟩

theorem resolveEmailConfig_ok (pid : String) (esc : EmailServiceConfigDB)
    (h : esc.proxiedEmailServiceConfig.isSome = true ∨
      (esc.proxiedEmailServiceConfig = none ∧ esc.standardEmailServiceConfig.isSome = true)) :
    ∃ y, resolveEmailConfig pid (some esc) = .ok y := by
  rw [resolveEmailConfig_some]
  rcases h with h | ⟨hnone, h⟩
  · cases hp : esc.proxiedEmailServiceConfig with
    | none =>
      rw [hp] at h
      cases h
    | some pe => exact ⟨_, rfl⟩
  · rw [hnone]
    cases hs : esc.standardEmailServiceConfig with
    | none =>
      rw [hs] at h
      cases h
    | some std => exact ⟨_, rfl⟩

theorem projectPrismaToCrud_ok_of (proj : ProjectDB)
    (hrows : ∀ r ∈ proj.config.authMethodConfigs, r.oauthProviderConfig = none ∨
      ∃ cfg, r.oauthProviderConfig = some cfg ∧
        (cfg.proxiedOAuthConfig.isSome = true ∨
          (cfg.proxiedOAuthConfig = none ∧ cfg.standardOAuthConfig.isSome = true)))
    (hemail : ∃ e, proj.config.emailServiceConfig = some e ∧
      (e.proxiedEmailServiceConfig.isSome = true ∨
        (e.proxiedEmailServiceConfig = none ∧ e.standardEmailServiceConfig.isSome = true))) :
    ∃ view, projectPrismaToCrud proj = .ok view := by
  obtain ⟨mapped, hmapped⟩ :=
    mapExcept_ok_of_forall (fun r hr => resolveOAuthProvider_ok proj.id r (hrows r hr))
  obtain ⟨e, he, hev⟩ := hemail
  obtain ⟨ev, hevok⟩ := resolveEmailConfig_ok proj.id e hev
  cases hres : projectPrismaToCrud proj with
  | ok v => exact ⟨v, rfl⟩
  | error e2 =>
    exfalso
    rw [projectPrismaToCrud, hmapped, exc_bind_ok, he, hevok, exc_bind_ok] at hres
    exact Except.noConfusion hres

theorem extraRows_oauth_none (config : Option ConfigRequest) :
    ∀ r ∈ otpRowsOf config ++ (passwordRowsOf config ++ passkeyRowsOf config),
      r.oauthProviderConfig = none := by
  intro r hr
  have hnone := List.filter_eq_nil_iff.mp (extraRows_oauth_filter config) r hr
  cases ho : r.oauthProviderConfig with
  | none => rfl
  | some cfg =>
    exfalso
    apply hnone
    rw [ho]
    rfl

theorem buildAuthMethodConfigs_ok_of {data : CreateRequest} {cfgs : List OAuthProviderConfigDB}
    (hcfgs : mapExcept buildOAuthProviderConfig ((data.config.bind (·.oauth_providers)).getD []) =
      .ok cfgs) :
    ∃ amcs, buildAuthMethodConfigs data.config cfgs = .ok amcs ∧
      ∀ r ∈ amcs, r.oauthProviderConfig = none ∨
        ∃ cfg, r.oauthProviderConfig = some cfg ∧ ∃ p, buildOAuthProviderConfig p = .ok cfg := by
  cases hop : data.config.bind (·.oauth_providers) with
  | none =>
    refine ⟨_, buildAuthMethodConfigs_none hop, ?_⟩
    intro r hr
    simp only [List.append_assoc] at hr
    exact Or.inl (extraRows_oauth_none data.config r hr)
  | some provs =>
    rw [hop, Option.getD_some] at hcfgs
    have hf : List.Forall₂ (fun p cfg => buildOAuthProviderConfig p = .ok cfg) provs cfgs :=
      mapExcept_ok_iff.mp hcfgs
    have hfind : ∀ item ∈ cfgs, ∃ entry, findRequestEntry provs item = .ok entry := by
      intro item hi
      obtain ⟨p, hp, hb⟩ := forall₂_exists_left hf hi
      cases hfq : provs.find? (fun q => q.id = item.id) with
      | some entry => exact ⟨entry, by rw [findRequestEntry, hfq]⟩
      | none =>
        exfalso
        have := List.find?_eq_none.mp hfq p hp
        apply this
        rw [decide_eq_true_eq]
        exact (buildOAuthProviderConfig_ok_id hb).symm
    obtain ⟨oauthRows, hoauthRows⟩ := mapExcept_ok_of_forall (l := cfgs)
      (f := authMethodRowOf provs) (fun item hi => by
        obtain ⟨entry, hentry⟩ := hfind item hi
        exact ⟨_, by rw [authMethodRowOf, hentry, exc_bind_ok]; rfl⟩)
    refine ⟨_, by rw [buildAuthMethodConfigs_some hop, hoauthRows, exc_bind_ok]; rfl, ?_⟩
    intro r hr
    simp only [List.append_assoc] at hr
    rcases List.mem_append.mp hr with hr2 | hr2
    · have hfr := mapExcept_ok_iff.mp hoauthRows
      obtain ⟨item, hi, hrowok⟩ := forall₂_exists_left hfr hr2
      rw [authMethodRowOf, exc_bind_ok_iff] at hrowok
      obtain ⟨entry, _, hrow⟩ := hrowok
      injection hrow with hrow2
      obtain ⟨p, _, hb⟩ := forall₂_exists_left hf hi
      exact Or.inr ⟨item, by rw [← hrow2]; rfl, p, hb⟩
    · exact Or.inl (extraRows_oauth_none data.config r hr2)

theorem buildConnectedAccountConfigs_ok_of {data : CreateRequest}
    {cfgs : List OAuthProviderConfigDB}
    (hcfgs : mapExcept buildOAuthProviderConfig ((data.config.bind (·.oauth_providers)).getD []) =
      .ok cfgs) :
    ∃ cacs, buildConnectedAccountConfigs data.config cfgs = .ok cacs := by
  cases hop : data.config.bind (·.oauth_providers) with
  | none => exact ⟨[], buildConnectedAccountConfigs_none hop⟩
  | some provs =>
    rw [hop, Option.getD_some] at hcfgs
    have hf : List.Forall₂ (fun p cfg => buildOAuthProviderConfig p = .ok cfg) provs cfgs :=
      mapExcept_ok_iff.mp hcfgs
    have hfind : ∀ item ∈ cfgs, ∃ entry, findRequestEntry provs item = .ok entry := by
      intro item hi
      obtain ⟨p, hp, hb⟩ := forall₂_exists_left hf hi
      cases hfq : provs.find? (fun q => q.id = item.id) with
      | some entry => exact ⟨entry, by rw [findRequestEntry, hfq]⟩
      | none =>
        exfalso
        have := List.find?_eq_none.mp hfq p hp
        apply this
        rw [decide_eq_true_eq]
        exact (buildOAuthProviderConfig_ok_id hb).symm
    obtain ⟨rows, hrows⟩ := mapExcept_ok_of_forall (l := cfgs)
      (f := connectedAccountRowOf provs) (fun item hi => by
        obtain ⟨entry, hentry⟩ := hfind item hi
        exact ⟨_, by rw [connectedAccountRowOf, hentry, exc_bind_ok]; rfl⟩)
    exact ⟨rows, by rw [buildConnectedAccountConfigs_some hop]; exact hrows⟩

/-- The created project graph after the auth-method, connected-account and
permission steps are attached. -/
def withCreatedRows (proj0 : ProjectDB) (newId newConfigId : String)
    (amcs : List AuthMethodConfigDB) (cacs : List ConnectedAccountConfigDB) : ProjectDB :=
  { proj0 with config := { proj0.config with
      authMethodConfigs := amcs,
      connectedAccountConfigs := cacs,
      permissions := defaultPermissions newId newConfigId } }

theorem createProject_ok_of (newId newConfigId : String) (createdAtMillis : Nat)
    (s : Store) (ownerIds : List String) (data : CreateRequest) (proj0 : ProjectDB)
    (hbuild : buildProject newId newConfigId createdAtMillis data = .ok proj0)
    (hn1 : (proj0.config.oauthProviderConfigs.map (·.id)).Nodup)
    (hn2 : (proj0.config.domains.map (·.domain)).Nodup)
    (hmeta : ∀ u ∈ s.users, metadataUpdatable u.serverMetadata = true) :
    ∃ s2 view users2 anomalies2,
      createProject newId newConfigId createdAtMillis s ownerIds data = (s2, .ok view) ∧
      processOwners newId ownerIds s.users s.anomalies ownerIds = .ok (users2, anomalies2) ∧
      s2.anomalies = anomalies2 := by
  obtain ⟨cfgs, email, hcfgs, hemail, hcfgseq, hemaileq, _, _, _, _, _, _⟩ :=
    buildProject_ok_elim hbuild
  obtain ⟨amcs, hamcs, hrows⟩ := buildAuthMethodConfigs_ok_of hcfgs
  obtain ⟨cacs, hcacs⟩ := buildConnectedAccountConfigs_ok_of hcfgs
  obtain ⟨users2, anomalies2, how⟩ :=
    processOwners_ok newId ownerIds ownerIds s.users s.anomalies hmeta
  have hamcs2 : buildAuthMethodConfigs data.config proj0.config.oauthProviderConfigs =
      .ok amcs := by
    rw [hcfgseq]
    exact hamcs
  have hcacs2 : buildConnectedAccountConfigs data.config proj0.config.oauthProviderConfigs =
      .ok cacs := by
    rw [hcfgseq]
    exact hcacs
  have htx : createProjectTx newId newConfigId createdAtMillis s ownerIds data =
      .ok ({ projects := s.projects ++ [withCreatedRows proj0 newId newConfigId amcs cacs],
             users := users2, anomalies := anomalies2 },
        withCreatedRows proj0 newId newConfigId amcs cacs) := by
    rw [createProjectTx, hbuild, exc_bind_ok, if_pos hn1, exc_pure_bind, if_pos hn2,
      exc_pure_bind, hamcs2, exc_bind_ok, hcacs2, exc_bind_ok, how, exc_bind_ok]
    rfl
  obtain ⟨view, hview⟩ := projectPrismaToCrud_ok_of
    (withCreatedRows proj0 newId newConfigId amcs cacs)
    (fun r hr => by
      rcases hrows r hr with h2 | ⟨cfg, hcfg, p, hb⟩
      · exact Or.inl h2
      · exact Or.inr ⟨cfg, hcfg, buildOAuthProviderConfig_ok_variant hb⟩)
    ⟨email, hemaileq, buildEmailServiceConfig_ok_variant hemail⟩
  refine ⟨Store.mk (s.projects ++ [withCreatedRows proj0 newId newConfigId amcs cacs])
    users2 anomalies2, view, users2, anomalies2, ?_, how, rfl⟩
  rw [createProject, htx]
  exact congrArg (fun r => (Store.mk
    (s.projects ++ [withCreatedRows proj0 newId newConfigId amcs cacs]) users2 anomalies2, r))
    hview

/-! ### Claim C8: a missing owner never aborts provisioning -/

/-- Claim C8: if some owner user id has no OwnerUser row in the internal
namespace, `createProject` does not abort: processing records the
owner-not-found anomaly and continues with the remaining owners, and the
call still returns the created project view with no error (assuming the
request itself builds, the store uniqueness constraints hold, and the
remaining owners' metadata is well typed). -/
theorem C8_missing_owner (newId newConfigId : String) (createdAtMillis : Nat)
    (s : Store) (ownerIds : List String) (data : CreateRequest) (uid : String)
    (proj0 : ProjectDB)
    (hmem : uid ∈ ownerIds)
    (hmiss : s.users.find?
      (fun u => u.projectId = "internal" ∧ u.projectUserId = uid) = none)
    (hbuild : buildProject newId newConfigId createdAtMillis data = .ok proj0)
    (hn1 : (proj0.config.oauthProviderConfigs.map (·.id)).Nodup)
    (hn2 : (proj0.config.domains.map (·.domain)).Nodup)
    (hmeta : ∀ u ∈ s.users, metadataUpdatable u.serverMetadata = true) :
    (∃ s2 view, createProject newId newConfigId createdAtMillis s ownerIds data =
        (s2, .ok view) ∧
      ownerNotFoundAnomaly uid ownerIds ∈ s2.anomalies) ∧
    (∀ (users : List ProjectUserDB) (anomalies : List Anomaly) (rest : List String),
      users.find? (fun u => u.projectId = "internal" ∧ u.projectUserId = uid) = none →
      processOwners newId ownerIds users anomalies (uid :: rest) =
        processOwners newId ownerIds users
          (anomalies ++ [ownerNotFoundAnomaly uid ownerIds]) rest) := by
  constructor
  · obtain ⟨s2, view, users2, anomalies2, hcp, how, hanoms⟩ :=
      createProject_ok_of newId newConfigId createdAtMillis s ownerIds data proj0
        hbuild hn1 hn2 hmeta
    have hrec := processOwners_records newId ownerIds uid ownerIds s.users s.anomalies
      users2 anomalies2 hmem hmiss how
    refine ⟨s2, view, hcp, ?_⟩
    rw [hanoms]
    exact hrec
  · intro users anomalies rest hmiss2
    rw [processOwners, hmiss2]

/-- Claim C8 witness: creating with owners `["u1", "ghost"]` where `ghost`
has no internal user still succeeds and records the anomaly. -/
theorem C8_missing_owner_witness :
    "ghost" ∈ ["u1", "ghost"] ∧
    (∃ s2 view, createProject "p1" "c1" 0 sampleStore ["u1", "ghost"] sampleRequest =
        (s2, .ok view) ∧
      ownerNotFoundAnomaly "ghost" ["u1", "ghost"] ∈ s2.anomalies) :=
  ⟨by decide,
   (C8_missing_owner "p1" "c1" 0 sampleStore ["u1", "ghost"] sampleRequest "ghost" _
     (by decide) rfl rfl (by decide) (by decide) (by decide)).1⟩

end Stack
